import Mathlib

/-!
Verification development for the statistiche-mercatino repository.

The repository tracks three remote Habbo game-data resources
(`furnidata` JSON, `external_variables` text, `external_flash_texts` text),
compares each freshly downloaded document against a locally stored snapshot,
and posts the differences to a Discord webhook as size-limited embeds.

This file gives a shallow embedding of the pure core of that pipeline:
the greedy line packers (`split_text_into_chunks` / `split_diff_chunks`),
the unified-diff filter (`generate_diff`), the DeepDiff path parsing and
lookup helpers (`parse_diff_path` / `get_by_path`), the diff-rendering
functions (`generate_object_diff` / `generate_new_object_diff`), the
embed builder (`send_discord_diff_notification`), and the per-script
`main` control flow, together with theorems about them.
-/

set_option linter.unusedVariables false

/-- The single quote character, written once so it can be referred to by name. -/
def quoteChar : Char := '\''

/-- Python `str.startswith`, modelled on the character list of the string. -/
def pyStartsWith (s pre : String) : Bool :=
  pre.data.isPrefixOf s.data

/-- Split a character list at newline characters (separators dropped). -/
def splitNL : List Char → List (List Char)
  | [] => [[]]
  | c :: rest =>
    if c = '\n' then [] :: splitNL rest
    else
      match splitNL rest with
      | p :: ps => (c :: p) :: ps
      | [] => [[c]]

/-- Python `str.splitlines()` for documents whose only line terminator is
`'\n'` (the only terminator relevant to this repository): split at every
newline and drop the trailing empty piece, so that `""` gives `[]` and
`"a\n"` gives `["a"]`. -/
def pySplitlines (s : String) : List String :=
  let ps := splitNL s.data
  let ps := if ps.getLast? = some [] then ps.dropLast else ps
  ps.map (fun cs => String.mk cs)

/-- The shared greedy packing loop of `split_text_into_chunks`
(furnidata/furnidata.py) and the two `split_diff_chunks` variants
(external_variables.py, external_flash_texts.py).  `sep` is the
inter-line separator (`"\n"` or `"\n\n"`); the Python sources hard-code
the literal `1` resp. `2` in the size check, which equals `sep.length`.
`current` is the chunk being accumulated (initially `""`). -/
def chunkLoop (sep : String) (maxLen : Nat) (current : String) : List String → List String
  | [] => if current = "" then [] else [current]
  | line :: rest =>
    if current = "" then chunkLoop sep maxLen line rest
    else if maxLen < current.length + line.length + sep.length then
      current :: chunkLoop sep maxLen line rest
    else chunkLoop sep maxLen (current ++ sep ++ line) rest

/-- `split_text_into_chunks(text, max_length)` from furnidata/furnidata.py:
split the text into lines and pack them greedily with `"\n"` as separator
(`len(current_chunk) + len(line) + 1 > max_length` closes the chunk). -/
def split_text_into_chunks (text : String) (max_length : Nat) : List String :=
  chunkLoop "\n" max_length "" (pySplitlines text)

/-- `split_diff_chunks(diff_lines, max_length)` from
external_flash_texts/external_flash_texts.py: pack the given lines
greedily with `"\n"` as separator. -/
def eft_split_diff_chunks (diff_lines : List String) (max_length : Nat) : List String :=
  chunkLoop "\n" max_length "" diff_lines

/-- `split_diff_chunks(diff_lines, max_length)` from
external_variables/external_variables.py: pack the given lines greedily
with `"\n\n"` as separator (the size check uses the literal `2`). -/
def ev_split_diff_chunks (diff_lines : List String) (max_length : Nat) : List String :=
  chunkLoop "\n\n" max_length "" diff_lines

/-- Join a list of lines with the given separator; `joinLines sep chunks`
is the text obtained by concatenating the chunks in order. -/
def joinLines (sep : String) : List String → String
  | [] => ""
  | [l] => l
  | l :: rest => l ++ sep ++ joinLines sep rest

/-- JSON values, the data model of the furnidata document.  Mappings are
insertion-ordered association lists (Python 3.7+ `dict` preserves
insertion order and has unique keys); numbers are modelled as integers
(the furnidata JSON carries integer and string scalars). -/
inductive JsonV where
  | null : JsonV
  | bool (b : Bool) : JsonV
  | num (n : Int) : JsonV
  | str (s : String) : JsonV
  | arr (xs : List JsonV) : JsonV
  | obj (fields : List (String × JsonV)) : JsonV
  deriving Repr

mutual
/-- Python `==` on JSON values (deep structural equality). -/
def JsonV.beq : JsonV → JsonV → Bool
  | .null, .null => true
  | .bool a, .bool b => a == b
  | .num a, .num b => a == b
  | .str a, .str b => a == b
  | .arr xs, .arr ys => beqArr xs ys
  | .obj fs, .obj gs => beqObj fs gs
  | _, _ => false

/-- Elementwise `==` on JSON arrays. -/
def beqArr : List JsonV → List JsonV → Bool
  | [], [] => true
  | x :: xs, y :: ys => JsonV.beq x y && beqArr xs ys
  | _, _ => false

/-- Pairwise `==` on JSON object field lists. -/
def beqObj : List (String × JsonV) → List (String × JsonV) → Bool
  | [], [] => true
  | (k, v) :: fs, (k2, v2) :: gs => k == k2 && JsonV.beq v v2 && beqObj fs gs
  | _, _ => false
end

/-- A step of a DeepDiff path as produced by `parse_diff_path`: a quoted
string key or a bare integer index. -/
inductive JKey where
  | str (s : String) : JKey
  | num (n : Nat) : JKey
  deriving DecidableEq, Repr

/-- Decimal value of a digit run. -/
def digitsToNat (ds : List Char) : Nat :=
  ds.foldl (fun n c => n * 10 + (c.toNat - '0'.toNat)) 0

/-- One left-to-right scan of `re.finditer` for the pattern
`\['([^']+)'\]|\[(\d+)\]` of `parse_diff_path` (furnidata/furnidata.py):
at each position try to match a bracketed quoted key (at least one
non-quote character between quotes, then a closing bracket) or a
bracketed digit run; on a match emit the key and continue after the
match, otherwise advance one character.  The fuel argument only bounds
the recursion; it starts at the length of the scanned text and each step
consumes at least one character, so it never runs out early. -/
def scanDiffPath : Nat → List Char → List JKey
  | 0, _ => []
  | _ + 1, [] => []
  | fuel + 1, c :: rest =>
    if c = '[' then
      match rest with
      | [] => []
      | q :: rest2 =>
        if q = quoteChar then
          let run := rest2.takeWhile (fun d => ¬ d = quoteChar)
          let after := rest2.dropWhile (fun d => ¬ d = quoteChar)
          match run, after with
          | _ :: _, _ :: br :: rest3 =>
            if br = ']' then JKey.str (String.mk run) :: scanDiffPath fuel rest3
            else scanDiffPath fuel rest
          | _, _ => scanDiffPath fuel rest
        else
          let ds := rest.takeWhile Char.isDigit
          let after := rest.dropWhile Char.isDigit
          match ds, after with
          | _ :: _, a :: rest3 =>
            if a = ']' then JKey.num (digitsToNat ds) :: scanDiffPath fuel rest3
            else scanDiffPath fuel rest
          | _, _ => scanDiffPath fuel rest
    else scanDiffPath fuel rest

/-- `parse_diff_path(diff_path)` from furnidata/furnidata.py: convert a
DeepDiff path string such as
`root['roomitemtypes']['furnitype'][14853]['name']` into the list of
keys `[str "roomitemtypes", str "furnitype", num 14853, str "name"]`. -/
def parse_diff_path (diff_path : String) : List JKey :=
  scanDiffPath diff_path.data.length diff_path.data

/-- Fuel-driven digit-list construction for the standard decimal
rendering of a natural number (least significant digit last).  The fuel
starts at `n + 1` and `n / 10 < n` for `n ≥ 10`, so it never runs out. -/
def natDecimalAux : Nat → Nat → List Char
  | 0, _ => []
  | f + 1, n =>
    if n < 10 then [Nat.digitChar n]
    else natDecimalAux f (n / 10) ++ [Nat.digitChar (n % 10)]

/-- Standard decimal digit list of a natural number, as Python's `str`
renders a nonnegative `int`. -/
def natDecimal (n : Nat) : List Char :=
  natDecimalAux (n + 1) n

/-- The rendering DeepDiff uses for one path step: `['key']` for a string
key, `[3]` for an index.  (Modelled from the DeepDiff library, an
external collaborator: its textual paths quote string keys and leave
integer indices bare, rendered in standard decimal.) -/
def renderStep : JKey → String
  | .str s => "[" ++ String.singleton quoteChar ++ s ++ String.singleton quoteChar ++ "]"
  | .num n => "[" ++ String.mk (natDecimal n) ++ "]"

/-- Concatenation of the rendered steps of a path. -/
def renderSteps : List JKey → String
  | [] => ""
  | k :: ks => renderStep k ++ renderSteps ks

/-- The DeepDiff rendering of a whole path: `root` followed by the
rendered steps. -/
def renderPath (steps : List JKey) : String :=
  "root" ++ renderSteps steps

/-- First-match lookup in a JSON object's field list (Python dict
lookup; dict keys are unique, so first match is the match). -/
def jsonLookup (fs : List (String × JsonV)) (k : String) : Option JsonV :=
  match fs with
  | [] => none
  | (k2, v) :: rest => if k2 = k then some v else jsonLookup rest k

/-- `get_by_path(data, keys)` from furnidata/furnidata.py: repeated
subscript `data[key]`.  Any Python lookup failure (`KeyError`,
`IndexError`, `TypeError`) is collapsed to `none`; every call site wraps
`get_by_path` in `try/except Exception`.  Subscripting a string with an
integer yields a one-character string, as in Python. -/
def get_by_path : JsonV → List JKey → Option JsonV
  | data, [] => some data
  | .obj fs, .str k :: rest =>
    match jsonLookup fs k with
    | some v => get_by_path v rest
    | none => none
  | .arr xs, .num i :: rest =>
    match xs.get? i with
    | some v => get_by_path v rest
    | none => none
  | .str s, .num i :: rest =>
    match s.data.get? i with
    | some ch => get_by_path (.str (String.mk [ch])) rest
    | none => none
  | _, _ => none

/-- One character of Python `json.dumps` string escaping (quotes,
backslashes and the common control characters; `\uXXXX` escaping of
other non-ASCII characters is not modelled, no claim depends on it). -/
def escJsonChar (c : Char) : String :=
  if c = '"' then "\\\""
  else if c = '\\' then "\\\\"
  else if c = '\n' then "\\n"
  else if c = '\t' then "\\t"
  else if c = '\r' then "\\r"
  else String.singleton c

/-- Python `json.dumps` of a string: double-quoted, escaped. -/
def quoteJson (s : String) : String :=
  "\"" ++ String.join (s.data.map escJsonChar) ++ "\""

mutual
/-- Python `json.dumps(value)` with its default separators
(`", "` between items, `": "` after keys). -/
def jsonDumps : JsonV → String
  | .null => "null"
  | .bool b => if b then "true" else "false"
  | .num n => toString n
  | .str s => quoteJson s
  | .arr xs => "[" ++ dumpsArr xs ++ "]"
  | .obj fs => "\x7b" ++ dumpsObj fs ++ "\x7d"

/-- `json.dumps` rendering of array items. -/
def dumpsArr : List JsonV → String
  | [] => ""
  | [x] => jsonDumps x
  | x :: rest => jsonDumps x ++ ", " ++ dumpsArr rest

/-- `json.dumps` rendering of object fields. -/
def dumpsObj : List (String × JsonV) → String
  | [] => ""
  | [(k, v)] => quoteJson k ++ ": " ++ jsonDumps v
  | (k, v) :: rest => quoteJson k ++ ": " ++ jsonDumps v ++ ", " ++ dumpsObj rest
end

/-- `json.dumps` of a parsed path key (string keys are quoted, integer
keys are rendered bare, exactly as Python renders `str` and `int`). -/
def jkeyDumps : JKey → String
  | .str s => quoteJson s
  | .num n => toString n

/-- First-match lookup of a field in the grouped modifications of one
parent (Python `key in modifications` / `modifications[key]`). -/
def lookupMod (mods : List (JKey × JsonV × JsonV)) (k : JKey) : Option (JsonV × JsonV) :=
  match mods with
  | [] => none
  | (k2, ov, nv) :: rest => if k2 = k then some (ov, nv) else lookupMod rest k

/-- `generate_object_diff(old_obj, new_obj, modifications)` from
furnidata/furnidata.py: a JSON-style diff block for one object with
modifications.  Keys are listed in new-object order, followed by keys
only in the old object; modified keys render as a `-` old line and a `+`
new line, other keys as an indented context line.  A non-mapping
`new_obj` raises `AttributeError` on `new_obj.keys()`, modelled as an
error; iteration over a non-mapping `old_obj` is also modelled as an
error (Python would iterate a list or a string elementwise, a case this
pipeline never produces and no theorem below relies on). -/
def generate_object_diff (old_obj new_obj : JsonV)
    (modifications : List (JKey × JsonV × JsonV)) : Except String String :=
  match new_obj with
  | .obj gs =>
    match old_obj with
    | .obj fs =>
      let keys0 : List JKey := gs.map (fun kv => JKey.str kv.1)
      let keys := fs.foldl (fun ks kv =>
        if (jsonLookup gs kv.1).isSome then ks
        else if ks.contains (JKey.str kv.1) then ks
        else ks ++ [JKey.str kv.1]) keys0
      let body := keys.flatMap (fun k =>
        match lookupMod modifications k with
        | some ovnv =>
          ["- " ++ jkeyDumps k ++ ": " ++ jsonDumps ovnv.1 ++ ",",
           "+ " ++ jkeyDumps k ++ ": " ++ jsonDumps ovnv.2 ++ ","]
        | none =>
          let v := match k with
            | .str s =>
              match jsonLookup gs s with
              | some w => w
              | none => (jsonLookup fs s).getD .null
            | .num _ => .null
          ["  " ++ jkeyDumps k ++ ": " ++ jsonDumps v ++ ","])
      .ok (joinLines "\n" (["\x7b"] ++ body ++ ["\x7d"]))
    | _ => .error "TypeError: iteration over a non-mapping value"
  | _ => .error "AttributeError: keys"

/-- `generate_new_object_diff(new_obj)` from furnidata/furnidata.py: the
full rendering of a new object with every field line prefixed by `+`.  A
non-mapping value raises `AttributeError` on `new_obj.items()`. -/
def generate_new_object_diff : JsonV → Except String String
  | .obj fs =>
    .ok (joinLines "\n" (["\x7b"] ++
      fs.map (fun kv => "  + " ++ quoteJson kv.1 ++ ": " ++ jsonDumps kv.2 ++ ",") ++ ["\x7d"]))
  | _ => .error "AttributeError: items"

/-- A Discord embed as built by these scripts: title, description, color. -/
structure Embed where
  title : String
  description : String
  color : Nat
  deriving DecidableEq, Repr

/-- Insert-or-overwrite into the `new_objects` dict keyed by parsed path
(Python dict assignment: first insertion fixes the position, later
assignments overwrite the value). -/
def upsertObj (k : List JKey) (v : JsonV) :
    List (List JKey × JsonV) → List (List JKey × JsonV)
  | [] => [(k, v)]
  | (k2, v2) :: rest => if k2 = k then (k2, v) :: rest else (k2, v2) :: upsertObj k v rest

/-- Insert-or-overwrite one field's old/new pair inside a parent's
modification dict. -/
def upsertField (field : JKey) (ov nv : JsonV) :
    List (JKey × JsonV × JsonV) → List (JKey × JsonV × JsonV)
  | [] => [(field, ov, nv)]
  | (f, o, n) :: rest =>
    if f = field then (f, ov, nv) :: rest else (f, o, n) :: upsertField field ov nv rest

/-- `modifications_by_parent.setdefault(parent, {})[field] = {...}`:
insert-or-extend the group of the given parent. -/
def upsertMods (parent : List JKey) (field : JKey) (ov nv : JsonV) :
    List (List JKey × List (JKey × JsonV × JsonV)) →
    List (List JKey × List (JKey × JsonV × JsonV))
  | [] => [(parent, [(field, ov, nv)])]
  | (p, ms) :: rest =>
    if p = parent then (p, upsertField field ov nv ms) :: rest
    else (p, ms) :: upsertMods parent field ov nv rest

/-- Sequential effectful map over `Except`: the Python `for` loop that
builds a list and lets any raised exception propagate. -/
def exceptMapM {α β : Type} (f : α → Except String β) : List α → Except String (List β)
  | [] => .ok []
  | x :: xs => do
    let b ← f x
    let bs ← exceptMapM f xs
    pure (b :: bs)

/-- Sequential effectful fold over `Except`: the Python `for` loop that
updates an accumulator and lets any raised exception propagate. -/
def exceptFoldl {α β : Type} (f : β → α → Except String β) : β → List α → Except String β
  | acc, [] => .ok acc
  | acc, x :: xs => do
    let acc2 ← f acc x
    exceptFoldl f acc2 xs

/-- One iteration of the `new_objects` collection loops
(furnidata/furnidata.py lines 144-158): parse the added path and look it
up in the new document; a lookup failure is caught, logged and skipped
(the accumulator is unchanged). -/
def newObjectStep (new_data : JsonV) (acc : List (List JKey × JsonV)) (path : String) :
    List (List JKey × JsonV) :=
  let keys := parse_diff_path path
  match get_by_path new_data keys with
  | some v => upsertObj keys v acc
  | none => acc

/-- The `new_objects` dict of `send_discord_diff_notification`
(furnidata/furnidata.py lines 141-158): the step above folded over the
added paths, dict-added first, then iterable-added, as in the source. -/
def buildNewObjects (added : List String) (new_data : JsonV) :
    List (List JKey × JsonV) :=
  added.foldl (newObjectStep new_data) []

/-- One iteration of the grouping loop: parse the changed path, split it
into parent (`keys[:-1]`) and field (`keys[-1]`), and extend the group
of that parent; `keys[-1]` on an empty parse raises `IndexError`. -/
def modsStep (acc : List (List JKey × List (JKey × JsonV × JsonV)))
    (pc : String × JsonV × JsonV) :
    Except String (List (List JKey × List (JKey × JsonV × JsonV))) :=
  let keys := parse_diff_path pc.1
  match keys.getLast? with
  | some field => .ok (upsertMods keys.dropLast field pc.2.1 pc.2.2 acc)
  | none => .error "IndexError: list index out of range"

/-- The `modifications_by_parent` grouping of
`send_discord_diff_notification` (furnidata/furnidata.py lines 170-179):
group each `values_changed` record under the parsed path of its parent
(all keys but the last); `keys[-1]` on an empty parse raises
`IndexError`, which no handler catches. -/
def modificationsByParent (vc : List (String × JsonV × JsonV)) :
    Except String (List (List JKey × List (JKey × JsonV × JsonV))) :=
  exceptFoldl modsStep [] vc

/-- The result categories of `DeepDiff(local, new, ignore_order=True)`
that this pipeline can encounter.  Python's result is a mapping from
category name to records; here each category is a field, an absent
category being the empty list. -/
structure DeepDiffResult where
  dictionary_item_added : List String
  iterable_item_added : List String
  dictionary_item_removed : List String
  iterable_item_removed : List String
  values_changed : List (String × JsonV × JsonV)
  type_changes : List (String × JsonV × JsonV)
  deriving Repr

/-- Python truthiness of a DeepDiff result: it is falsy iff no category
has any record. -/
def DeepDiffResult.isEmpty (d : DeepDiffResult) : Bool :=
  d.dictionary_item_added.isEmpty && d.iterable_item_added.isEmpty &&
  d.dictionary_item_removed.isEmpty && d.iterable_item_removed.isEmpty &&
  d.values_changed.isEmpty && d.type_changes.isEmpty

/-- Category-wise concatenation of two diff results. -/
def mergeDiff (a b : DeepDiffResult) : DeepDiffResult :=
  ⟨a.dictionary_item_added ++ b.dictionary_item_added,
   a.iterable_item_added ++ b.iterable_item_added,
   a.dictionary_item_removed ++ b.dictionary_item_removed,
   a.iterable_item_removed ++ b.iterable_item_removed,
   a.values_changed ++ b.values_changed,
   a.type_changes ++ b.type_changes⟩

/-- The diff result with no records. -/
def emptyDiff : DeepDiffResult := ⟨[], [], [], [], [], []⟩

/-- Membership in a multiset of JSON values, by Python `==`. -/
def memBeq (x : JsonV) (pool : List JsonV) : Bool :=
  pool.any (fun y => JsonV.beq y x)

/-- Remove the first `==`-equal occurrence from a multiset pool. -/
def eraseBeq (pool : List JsonV) (x : JsonV) : List JsonV :=
  match pool with
  | [] => []
  | y :: ys => if JsonV.beq y x then ys else y :: eraseBeq ys x

/-- Indices (starting at `i`) and values of the elements of the first
list that cannot be matched against a remaining element of the pool,
matching by `==` with multiplicity. -/
def unmatchedIdx : Nat → List JsonV → List JsonV → List (Nat × JsonV)
  | _, [], _ => []
  | i, x :: xs, pool =>
    if memBeq x pool then unmatchedIdx (i + 1) xs (eraseBeq pool x)
    else (i, x) :: unmatchedIdx (i + 1) xs pool

/-- DeepDiff's rendering of a mapping-key path step appended to a path. -/
def childPath (path k : String) : String :=
  path ++ "[" ++ String.singleton quoteChar ++ k ++ String.singleton quoteChar ++ "]"

/-- DeepDiff's rendering of a sequence-index path step appended to a path. -/
def idxPath (path : String) (i : Nat) : String :=
  path ++ "[" ++ toString i ++ "]"

/-- Constructor discriminant, modelling Python `type(x)` comparison for
JSON values. -/
def kindIdx : JsonV → Nat
  | .null => 0
  | .bool _ => 1
  | .num _ => 2
  | .str _ => 3
  | .arr _ => 4
  | .obj _ => 5

/-- Comparison of two values at a leaf position: equal values produce
nothing, same-type unequal values a `values_changed` record, and
differently-typed values a `type_changes` record. -/
def scalarDiff (path : String) (o n : JsonV) : DeepDiffResult :=
  if JsonV.beq o n then emptyDiff
  else if kindIdx o = kindIdx n then ⟨[], [], [], [], [(path, o, n)], []⟩
  else ⟨[], [], [], [], [], [(path, o, n)]⟩

mutual
/-- Modelled from the spec (DeepDiff is an external library, not part of
this repository): recursive structural diff of two JSON documents with
`ignore_order=True`.  Mappings compare key sets (keys only in the new
document are `dictionary_item_added`, keys only in the old one
`dictionary_item_removed`, common keys recurse); sequences are compared
order-insensitively, elements matched by deep equality with
multiplicity, the leftovers reported as `iterable_item_added` at their
index in the new sequence and `iterable_item_removed` at their index in
the old one (a changed element appears as one removal plus one addition,
never as a positional modification); unequal scalar leaves surface as
`values_changed` at the leaf's path, or `type_changes` when the value's
type changed. -/
def deepDiffWalk (path : String) (old : JsonV) : JsonV → DeepDiffResult
  | .obj gs =>
    match old with
    | .obj fs =>
      let adds := (gs.filter (fun kv => (jsonLookup fs kv.1).isNone)).map
        (fun kv => childPath path kv.1)
      let rems := (fs.filter (fun kv => (jsonLookup gs kv.1).isNone)).map
        (fun kv => childPath path kv.1)
      mergeDiff ⟨adds, [], rems, [], [], []⟩ (walkFields path fs gs)
    | o => scalarDiff path o (.obj gs)
  | .arr ys =>
    match old with
    | .arr xs =>
      ⟨[], (unmatchedIdx 0 ys xs).map (fun p => idxPath path p.1),
       [], (unmatchedIdx 0 xs ys).map (fun p => idxPath path p.1), [], []⟩
    | o => scalarDiff path o (.arr ys)
  | n => scalarDiff path old n

/-- Recursion of `deepDiffWalk` over the common keys, in new-document
field order. -/
def walkFields (path : String) (fs : List (String × JsonV)) :
    List (String × JsonV) → DeepDiffResult
  | [] => emptyDiff
  | (k, w) :: gs =>
    let d := match jsonLookup fs k with
      | some v => deepDiffWalk (childPath path k) v w
      | none => emptyDiff
    mergeDiff d (walkFields path fs gs)
end

/-- `DeepDiff(local_data, new_data, ignore_order=True)` as used by
furnidata/furnidata.py line 240. -/
def deepDiff (old new : JsonV) : DeepDiffResult :=
  deepDiffWalk "root" old new

/-- The "Furnidata New Object" embed for one rendered new object
(furnidata/furnidata.py lines 160-167), green. -/
def mkNewObjectEmbed (s : String) : Embed :=
  ⟨"Furnidata New Object", "```diff\n" ++ s ++ "\n```", 65280⟩

/-- The "Furnidata Modifications" embed for one rendered modification
group (furnidata/furnidata.py lines 181-197), yellow. -/
def mkModEmbed (s : String) : Embed :=
  ⟨"Furnidata Modifications", "```diff\n" ++ s ++ "\n```", 16776960⟩

/-- The green embed of one `new_objects` entry (furnidata/furnidata.py
lines 160-167): render the whole object with `+` prefixes. -/
def newObjectEmbed (kv : List JKey × JsonV) : Except String Embed := do
  let s ← generate_new_object_diff kv.2
  pure (mkNewObjectEmbed s)

/-- The yellow embed of one modification group (furnidata/furnidata.py
lines 181-197): resolve the parent in both documents, each side falling
back to the empty object `{}` when its lookup raises, then render the
group with `generate_object_diff`. -/
def modGroupEmbed (local_data new_data : JsonV)
    (pm : List JKey × List (JKey × JsonV × JsonV)) : Except String Embed := do
  let old_obj := (get_by_path local_data pm.1).getD (JsonV.obj [])
  let new_obj := (get_by_path new_data pm.1).getD (JsonV.obj [])
  let s ← generate_object_diff old_obj new_obj pm.2
  pure (mkModEmbed s)

/-- The embed list built by `send_discord_diff_notification`
(furnidata/furnidata.py lines 138-197) before length splitting: one
green embed per entry of the `new_objects` dict, in order, followed by
one yellow embed per parent group of `values_changed`, in order.  An
uncaught Python exception while rendering (non-mapping value, empty
parsed path) is an `error` result. -/
def buildDiffEmbeds (diff : DeepDiffResult) (local_data new_data : JsonV) :
    Except String (List Embed) := do
  let newObjects := buildNewObjects
    (diff.dictionary_item_added ++ diff.iterable_item_added) new_data
  let newEmbeds ← exceptMapM newObjectEmbed newObjects
  let groups ← modificationsByParent diff.values_changed
  let modEmbeds ← exceptMapM (modGroupEmbed local_data new_data) groups
  pure (newEmbeds ++ modEmbeds)

/-- `MAX_LENGTH` from furnidata/furnidata.py. -/
def MAX_LENGTH : Nat := 1900

/-- Length splitting of one embed (furnidata/furnidata.py lines
202-212): an embed whose description exceeds `MAX_LENGTH` is replaced by
one embed per chunk of `split_text_into_chunks`, keeping title and
color. -/
def splitEmbed (e : Embed) : List Embed :=
  if MAX_LENGTH < e.description.length then
    (split_text_into_chunks e.description MAX_LENGTH).map (fun c => ⟨e.title, c, e.color⟩)
  else [e]

/-- `send_discord_diff_notification(diff, local_data, new_data)` from
furnidata/furnidata.py: the sequence of embeds actually sent.  When the
built list is non-empty each embed is length-split and sent; when it is
empty (a truthy diff none of whose records produced an embed) a single
blue "No changes detected" embed is sent instead.  `now` stands for
`datetime.datetime.now().isoformat()`. -/
def send_discord_diff_notification (now : String) (diff : DeepDiffResult)
    (local_data new_data : JsonV) : Except String (List Embed) := do
  let embeds ← buildDiffEmbeds diff local_data new_data
  if embeds.isEmpty then
    pure [⟨"Furnidata Check", "No changes detected as of " ++ now, 3447003⟩]
  else
    pure (embeds.flatMap splitEmbed)

/-- Outcome of one furnidata run: the embeds sent to Discord, whether
the snapshot file was overwritten, and whether a diff was computed. -/
structure FurnidataRun where
  embeds : List Embed
  saved : Bool
  diffed : Bool
  deriving DecidableEq, Repr

/-- The single informational embed of a first furnidata run. -/
def initialFurnidataEmbed (now : String) : Embed :=
  ⟨"Initial Furnidata Snapshot", "Initial furnidata snapshot saved on " ++ now ++ ".", 3447003⟩

/-- `main()` from furnidata/furnidata.py as a function of the downloaded
document and the stored snapshot (the two I/O boundaries; `none` is a
failed download resp. an absent snapshot file).  A failed download
aborts; a first run saves the snapshot and sends one informational
embed; otherwise the run computes `DeepDiff(local, new, ignore_order=True)`
and, when it is truthy, sends the notification embeds and saves — an
unchanged document sends nothing and saves nothing. -/
def furnidata_main (now : String) (downloaded stored : Option JsonV) :
    Except String FurnidataRun :=
  match downloaded with
  | none => .ok ⟨[], false, false⟩
  | some new_data =>
    match stored with
    | none => .ok ⟨[initialFurnidataEmbed now], true, false⟩
    | some local_data =>
      let diff := deepDiff local_data new_data
      if diff.isEmpty then .ok ⟨[], false, true⟩
      else do
        let embeds ← send_discord_diff_notification now diff local_data new_data
        .ok ⟨embeds, true, true⟩

/-- Length of the common prefix of two line sequences. -/
def commonPrefixLen : List String → List String → Nat
  | x :: xs, y :: ys => if x = y then commonPrefixLen xs ys + 1 else 0
  | _, _ => 0

/-- Size of the matching run of `a` and `b` starting at positions `i`
and `j`, clipped to the windows ending at `ahi` and `bhi`. -/
def candSize (a b : List String) (ahi bhi i j : Nat) : Nat :=
  commonPrefixLen ((a.drop i).take (ahi - i)) ((b.drop j).take (bhi - j))

/-- All start-position pairs of the two windows, in lexicographic order. -/
def windowPairs (alo ahi blo bhi : Nat) : List (Nat × Nat) :=
  (List.range' alo (ahi - alo)).flatMap
    (fun i => (List.range' blo (bhi - blo)).map (fun j => (i, j)))

/-- Modelled from the spec (difflib is Python's standard library, an
external collaborator): `SequenceMatcher.find_longest_match` per its
documented contract — the longest matching block within the two windows
and, among ties, the one starting earliest in `a` and then earliest in
`b`; CPython's dict-based implementation realizes exactly this in the
junk-free case.  Returns `(besti, bestj, bestsize)`. -/
def findLongestMatch (a b : List String) (alo ahi blo bhi : Nat) : Nat × Nat × Nat :=
  (windowPairs alo ahi blo bhi).foldl (fun best ij =>
    let k := candSize a b ahi bhi ij.1 ij.2
    if best.2.2 < k then (ij.1, ij.2, k) else best) (alo, blo, 0)

/-- `SequenceMatcher.get_matching_blocks` before merging: recursively
find the longest match and recurse on the windows before and after it,
emitting blocks in sorted order.  The fuel starts at the combined length
plus one and each level splits strictly smaller windows, so it never
runs out early. -/
def matchingBlocksRec :
    Nat → List String → List String → Nat → Nat → Nat → Nat → List (Nat × Nat × Nat)
  | 0, _, _, _, _, _, _ => []
  | fuel + 1, a, b, alo, ahi, blo, bhi =>
    let m := findLongestMatch a b alo ahi blo bhi
    if m.2.2 = 0 then []
    else
      matchingBlocksRec fuel a b alo m.1 blo m.2.1 ++ [m] ++
      matchingBlocksRec fuel a b (m.1 + m.2.2) ahi (m.2.1 + m.2.2) bhi

/-- The adjacency-merging pass of `get_matching_blocks`: collapse blocks
that abut in both sequences, then append the `(la, lb, 0)` sentinel. -/
def mergeAdjacent (blocks : List (Nat × Nat × Nat)) (la lb : Nat) : List (Nat × Nat × Nat) :=
  let st := blocks.foldl (fun st blk =>
    let (i1, j1, k1, acc) := st
    if i1 + k1 = blk.1 ∧ j1 + k1 = blk.2.1 then (i1, j1, k1 + blk.2.2, acc)
    else if k1 ≠ 0 then (blk.1, blk.2.1, blk.2.2, acc ++ [(i1, j1, k1)])
    else (blk.1, blk.2.1, blk.2.2, acc))
    ((0, 0, 0, []) : Nat × Nat × Nat × List (Nat × Nat × Nat))
  let (i1, j1, k1, acc) := st
  (if k1 ≠ 0 then acc ++ [(i1, j1, k1)] else acc) ++ [(la, lb, 0)]

/-- `SequenceMatcher.get_matching_blocks(a, b)`. -/
def getMatchingBlocks (a b : List String) : List (Nat × Nat × Nat) :=
  mergeAdjacent (matchingBlocksRec (a.length + b.length + 1) a b 0 a.length 0 b.length)
    a.length b.length

/-- One opcode of `SequenceMatcher.get_opcodes`: a tag
(`"replace" | "delete" | "insert" | "equal"`) and the two ranges. -/
structure Opcode where
  tag : String
  i1 : Nat
  i2 : Nat
  j1 : Nat
  j2 : Nat
  deriving DecidableEq, Repr

/-- `SequenceMatcher.get_opcodes(a, b)`: walk the matching blocks,
emitting a `replace`/`delete`/`insert` opcode for each gap and an
`equal` opcode for each block. -/
def getOpcodes (a b : List String) : List Opcode :=
  let st := (getMatchingBlocks a b).foldl (fun st blk =>
    let (i, j, ans) := st
    let tag :=
      if i < blk.1 ∧ j < blk.2.1 then "replace"
      else if i < blk.1 then "delete"
      else if j < blk.2.1 then "insert"
      else ""
    let ans := if tag ≠ "" then ans ++ [(⟨tag, i, blk.1, j, blk.2.1⟩ : Opcode)] else ans
    let ans := if blk.2.2 ≠ 0 then
        ans ++ [(⟨"equal", blk.1, blk.1 + blk.2.2, blk.2.1, blk.2.1 + blk.2.2⟩ : Opcode)]
      else ans
    (blk.1 + blk.2.2, blk.2.1 + blk.2.2, ans)) ((0, 0, []) : Nat × Nat × List Opcode)
  st.2.2

/-- `SequenceMatcher.get_grouped_opcodes(n)`: clip the leading and
trailing equal runs to `n` lines of context, split at equal runs longer
than `2n`, and drop a final group that is a single equal opcode. -/
def groupedOpcodes (n : Nat) (codes0 : List Opcode) : List (List Opcode) :=
  let codes1 := if codes0.isEmpty then [(⟨"equal", 0, 1, 0, 1⟩ : Opcode)] else codes0
  let codes2 := match codes1 with
    | c :: rest =>
      if c.tag = "equal" then
        (⟨c.tag, max c.i1 (c.i2 - n), c.i2, max c.j1 (c.j2 - n), c.j2⟩ : Opcode) :: rest
      else codes1
    | [] => codes1
  let codes3 := match codes2.getLast? with
    | some c =>
      if c.tag = "equal" then
        codes2.dropLast ++ [(⟨c.tag, c.i1, min c.i2 (c.i1 + n), c.j1, min c.j2 (c.j1 + n)⟩ : Opcode)]
      else codes2
    | none => codes2
  let st := codes3.foldl (fun st c =>
    let (group, out) := st
    if c.tag = "equal" ∧ n + n < c.i2 - c.i1 then
      ([(⟨c.tag, max c.i1 (c.i2 - n), c.i2, max c.j1 (c.j2 - n), c.j2⟩ : Opcode)],
       out ++ [group ++ [(⟨c.tag, c.i1, min c.i2 (c.i1 + n), c.j1, min c.j2 (c.j1 + n)⟩ : Opcode)]])
    else (group ++ [c], out)) (([], []) : List Opcode × List (List Opcode))
  let (group, out) := st
  if ¬ group.isEmpty ∧ ¬ (group.length = 1 ∧ (group.headD ⟨"", 0, 0, 0, 0⟩).tag = "equal")
  then out ++ [group] else out

/-- `difflib._format_range_unified(start, stop)`. -/
def formatRangeUnified (start stop : Nat) : String :=
  let beginning := start + 1
  let length := stop - start
  if length = 1 then toString beginning
  else toString (if length = 0 then beginning - 1 else beginning) ++ "," ++ toString length

/-- The body lines one opcode contributes to a unified-diff hunk:
context lines prefixed `" "`, removals `"-"`, additions `"+"`. -/
def opcodeLines (a b : List String) (c : Opcode) : List String :=
  if c.tag = "equal" then ((a.drop c.i1).take (c.i2 - c.i1)).map (fun l => " " ++ l)
  else
    (if c.tag = "replace" ∨ c.tag = "delete" then
      ((a.drop c.i1).take (c.i2 - c.i1)).map (fun l => "-" ++ l) else []) ++
    (if c.tag = "replace" ∨ c.tag = "insert" then
      ((b.drop c.j1).take (c.j2 - c.j1)).map (fun l => "+" ++ l) else [])

/-- The `@@`-header plus body lines of one hunk group. -/
def groupLines (a b : List String) (g : List Opcode) : List String :=
  let c0 := g.headD ⟨"", 0, 0, 0, 0⟩
  let cL := g.getLastD ⟨"", 0, 0, 0, 0⟩
  ("@@ -" ++ formatRangeUnified c0.i1 cL.i2 ++ " +" ++ formatRangeUnified c0.j1 cL.j2 ++ " @@") ::
  g.flatMap (opcodeLines a b)

/-- `difflib.unified_diff(a, b, lineterm="")` with its default file
labels and `n=3` context, as called by `generate_diff`: empty when
there are no groups, otherwise the two file-header lines followed by
each group's hunk. -/
def unifiedDiff (a b : List String) : List String :=
  let groups := groupedOpcodes 3 (getOpcodes a b)
  if groups.isEmpty then []
  else "--- " :: "+++ " :: groups.flatMap (groupLines a b)

/-- `generate_diff(old_text, new_text)` from
external_flash_texts/external_flash_texts.py and
external_variables/external_variables.py: the unified diff of the two
line lists with every line starting with `---`, `+++` or `@@`
removed. -/
def generate_diff (old_text new_text : String) : List String :=
  (unifiedDiff (pySplitlines old_text) (pySplitlines new_text)).filter
    (fun l => ¬ (pyStartsWith l "---" ∨ pyStartsWith l "+++" ∨ pyStartsWith l "@@"))

/-- The `additions` selection of the two text-script `main`s: the diff
lines that start with `+`. -/
def textAdditions (diff_lines : List String) : List String :=
  diff_lines.filter (fun l => pyStartsWith l "+")

/-- The `deletions` selection of the two text-script `main`s: the diff
lines that start with `-`. -/
def textDeletions (diff_lines : List String) : List String :=
  diff_lines.filter (fun l => pyStartsWith l "-")

/-- Outcome of one text-resource run: embeds sent, snapshot written (if
any), and whether a diff was computed. -/
structure TextRun where
  embeds : List Embed
  saved : Option String
  diffed : Bool
  deriving DecidableEq, Repr

/-- A text-resource run either aborts with `sys.exit(1)` or completes. -/
inductive TextRunOutcome where
  | aborted : TextRunOutcome
  | completed (r : TextRun) : TextRunOutcome
  deriving DecidableEq, Repr

/-- `main()` from external_variables/external_variables.py as a function
of the downloaded text and the stored snapshot.  Download failure exits
with status 1; a first run saves and sends one informational embed; an
unchanged text returns before diffing; otherwise additions and deletions
are chunked into green resp. orange embeds and the snapshot is saved. -/
def ev_main (now : String) (downloaded stored : Option String) : TextRunOutcome :=
  match downloaded with
  | none => .aborted
  | some new_text =>
    match stored with
    | none => .completed ⟨[⟨"Initial External Variables Snapshot",
        "Initial External Variables Snapshot saved on " ++ now ++ ".", 3447003⟩],
        some new_text, false⟩
    | some old_text =>
      if new_text = old_text then .completed ⟨[], none, false⟩
      else
        let diff_lines := generate_diff old_text new_text
        let additions := textAdditions diff_lines
        let deletions := textDeletions diff_lines
        let embeds :=
          (if ¬ additions.isEmpty then (ev_split_diff_chunks additions 1900).map
            (fun c => ⟨"External Variables Additions", "```diff\n" ++ c ++ "\n```", 65280⟩)
           else []) ++
          (if ¬ deletions.isEmpty then (ev_split_diff_chunks deletions 1900).map
            (fun c => ⟨"External Variables Deletions", "```diff\n" ++ c ++ "\n```", 16753920⟩)
           else [])
        .completed ⟨embeds, some new_text, true⟩

/-- `main()` from external_flash_texts/external_flash_texts.py as a
function of the downloaded text and the stored snapshot.  Download
failure returns without exiting; the rest mirrors `ev_main` with this
script's titles and its `"\n"`-separated chunking. -/
def eft_main (now : String) (downloaded stored : Option String) : TextRunOutcome :=
  match downloaded with
  | none => .completed ⟨[], none, false⟩
  | some new_text =>
    match stored with
    | none => .completed ⟨[⟨"Initial External Flash Texts Snapshot",
        "Initial External Flash Texts Snapshot saved on " ++ now ++ ".", 3447003⟩],
        some new_text, false⟩
    | some old_text =>
      if new_text = old_text then .completed ⟨[], none, false⟩
      else
        let diff_lines := generate_diff old_text new_text
        let additions := textAdditions diff_lines
        let deletions := textDeletions diff_lines
        let embeds :=
          (if ¬ additions.isEmpty then (eft_split_diff_chunks additions 1900).map
            (fun c => ⟨"External Flash Texts Additions", "```diff\n" ++ c ++ "\n```", 65280⟩)
           else []) ++
          (if ¬ deletions.isEmpty then (eft_split_diff_chunks deletions 1900).map
            (fun c => ⟨"External Flash Texts Deletions", "```diff\n" ++ c ++ "\n```", 16753920⟩)
           else [])
        .completed ⟨embeds, some new_text, true⟩

/-- Whether a JSON value is a mapping (a Python `dict`). -/
def JsonV.isObj : JsonV → Bool
  | .obj _ => true
  | _ => false

/-- Well-formedness of a JSON document: every object, recursively, has
distinct keys.  Documents obtained from `json.loads` satisfy this by
construction, since Python dicts cannot hold duplicate keys. -/
inductive JsonV.Wf : JsonV → Prop
  | null : JsonV.Wf .null
  | bool (b : Bool) : JsonV.Wf (.bool b)
  | num (n : Int) : JsonV.Wf (.num n)
  | str (s : String) : JsonV.Wf (.str s)
  | arr (xs : List JsonV) (hx : ∀ x ∈ xs, JsonV.Wf x) : JsonV.Wf (.arr xs)
  | obj (fs : List (String × JsonV)) (hk : (fs.map Prod.fst).Nodup)
      (hv : ∀ kv ∈ fs, JsonV.Wf kv.2) : JsonV.Wf (.obj fs)

theorem chunkLoop_mem (sep : String) (maxLen : Nat) (lines0 : List String) :
    ∀ (lines : List String) (cur : String), (∀ l ∈ lines, l ∈ lines0) →
    (cur = "" ∨ cur.length ≤ maxLen ∨ cur ∈ lines0) →
    ∀ c ∈ chunkLoop sep maxLen cur lines, c.length ≤ maxLen ∨ c ∈ lines0
  | [], cur, hsub, hcur, c, hc => by
    rw [chunkLoop] at hc
    by_cases h : cur = ""
    · simp [h] at hc
    · simp [h] at hc
      subst hc
      rcases hcur with h0 | h1 | h2
      · exact absurd h0 h
      · exact Or.inl h1
      · exact Or.inr h2
  | line :: rest, cur, hsub, hcur, c, hc => by
    have hline : line ∈ lines0 := hsub _ (List.mem_cons_self _ _)
    have hrest : ∀ l ∈ rest, l ∈ lines0 := fun l h => hsub l (List.mem_cons_of_mem _ h)
    rw [chunkLoop] at hc
    by_cases h : cur = ""
    · simp only [h, if_pos rfl] at hc
      exact chunkLoop_mem sep maxLen lines0 rest line hrest (Or.inr (Or.inr hline)) c hc
    · simp only [h, if_neg h] at hc
      by_cases hov : maxLen < cur.length + line.length + sep.length
      · rw [if_pos hov] at hc
        rcases List.mem_cons.mp hc with hceq | hc2
        · subst hceq
          rcases hcur with h0 | h1 | h2
          · exact absurd h0 h
          · exact Or.inl h1
          · exact Or.inr h2
        · exact chunkLoop_mem sep maxLen lines0 rest line hrest (Or.inr (Or.inr hline)) c hc2
      · rw [if_neg hov] at hc
        have hlen : (cur ++ sep ++ line).length ≤ maxLen := by
          simp only [String.length_append]
          omega
        exact chunkLoop_mem sep maxLen lines0 rest (cur ++ sep ++ line) hrest
          (Or.inr (Or.inl hlen)) c hc

/-- Claim C1: every unit produced by the greedy packers
(`split_text_into_chunks` of furnidata/furnidata.py and
`split_diff_chunks` of external_variables/external_variables.py) has
rendered size at most the limit, the inter-fragment separator counting
against the limit, except when the unit is a single fragment line, taken
verbatim from the input, whose own size already exceeds the limit. -/
theorem packer_unit_size_bound :
    (∀ (text : String) (L : Nat) (c : String), c ∈ split_text_into_chunks text L →
      L < c.length → c ∈ pySplitlines text) ∧
    (∀ (lines : List String) (L : Nat) (c : String), c ∈ ev_split_diff_chunks lines L →
      L < c.length → c ∈ lines) := by
  constructor
  · intro text L c hc hlen
    have := chunkLoop_mem "\n" L (pySplitlines text) (pySplitlines text) ""
      (fun l h => h) (Or.inl rfl) c hc
    rcases this with h1 | h2
    · omega
    · exact h2
  · intro lines L c hc hlen
    have := chunkLoop_mem "\n\n" L lines lines "" (fun l h => h) (Or.inl rfl) c hc
    rcases this with h1 | h2
    · omega
    · exact h2

theorem packer_unit_size_bound_witness :
    ("aaaaaa" ∈ split_text_into_chunks "aaaaaa\nbb" 4 ∧ 4 < "aaaaaa".length ∧
      "aaaaaa" ∈ pySplitlines "aaaaaa\nbb") ∧
    ("cccccc" ∈ ev_split_diff_chunks ["cccccc", "dd"] 4 ∧ 4 < "cccccc".length ∧
      "cccccc" ∈ ["cccccc", "dd"]) :=
  ⟨⟨by decide, by decide,
      packer_unit_size_bound.1 "aaaaaa\nbb" 4 "aaaaaa" (by decide) (by decide)⟩,
   ⟨by decide, by decide,
      packer_unit_size_bound.2 ["cccccc", "dd"] 4 "cccccc" (by decide) (by decide)⟩⟩

theorem string_eq_empty_of_length (s : String) (h : s.length = 0) : s = "" := by
  cases s with
  | mk d =>
    have hd : d = [] := List.length_eq_zero.mp h
    subst hd
    rfl

theorem chunkLoop_ne_nil (sep : String) (maxLen : Nat) :
    ∀ (lines : List String) (cur : String), cur ≠ "" →
      chunkLoop sep maxLen cur lines ≠ []
  | [], cur, h => by
    rw [chunkLoop]
    simp [h]
  | line :: rest, cur, h => by
    rw [chunkLoop]
    rw [if_neg h]
    by_cases hov : maxLen < cur.length + line.length + sep.length
    · rw [if_pos hov]
      exact List.cons_ne_nil _ _
    · rw [if_neg hov]
      have hne : cur ++ sep ++ line ≠ "" := by
        intro hcontra
        have : (cur ++ sep ++ line).length = 0 := by rw [hcontra]; rfl
        simp only [String.length_append] at this
        have : cur.length = 0 := by omega
        exact h (string_eq_empty_of_length _ this)
      exact chunkLoop_ne_nil sep maxLen rest _ hne

theorem joinLines_cons (sep : String) (l : String) (rest : List String) (h : rest ≠ []) :
    joinLines sep (l :: rest) = l ++ sep ++ joinLines sep rest := by
  cases rest with
  | nil => exact absurd rfl h
  | cons r t => rfl

theorem chunkLoop_join (sep : String) (maxLen : Nat) :
    ∀ (lines : List String) (cur : String), cur ≠ "" → (∀ l ∈ lines, l ≠ "") →
      joinLines sep (chunkLoop sep maxLen cur lines) = joinLines sep (cur :: lines)
  | [], cur, hcur, _ => by
    rw [chunkLoop]
    simp [hcur]
  | line :: rest, cur, hcur, hlines => by
    have hline : line ≠ "" := hlines _ (List.mem_cons_self _ _)
    have hrest : ∀ l ∈ rest, l ≠ "" := fun l h => hlines l (List.mem_cons_of_mem _ h)
    rw [chunkLoop, if_neg hcur]
    by_cases hov : maxLen < cur.length + line.length + sep.length
    · rw [if_pos hov]
      rw [joinLines_cons sep cur _ (chunkLoop_ne_nil sep maxLen rest line hline)]
      rw [chunkLoop_join sep maxLen rest line hline hrest]
      rfl
    · rw [if_neg hov]
      have hne : cur ++ sep ++ line ≠ "" := by
        intro hcontra
        have : (cur ++ sep ++ line).length = 0 := by rw [hcontra]; rfl
        simp only [String.length_append] at this
        exact hline (string_eq_empty_of_length _ (by omega))
      rw [chunkLoop_join sep maxLen rest _ hne hrest]
      cases rest with
      | nil => simp [joinLines]
      | cons r t =>
        rw [joinLines_cons sep (cur ++ sep ++ line) _ (List.cons_ne_nil _ _),
          joinLines_cons sep cur _ (List.cons_ne_nil _ _),
          joinLines_cons sep line _ (List.cons_ne_nil _ _)]
        simp [String.append_assoc]

theorem chunkLoop_join_start (sep : String) (maxLen : Nat) (lines : List String)
    (h : ∀ l ∈ lines, l ≠ "") :
    joinLines sep (chunkLoop sep maxLen "" lines) = joinLines sep lines := by
  cases lines with
  | nil => rfl
  | cons l rest =>
    rw [chunkLoop, if_pos rfl]
    exact chunkLoop_join sep maxLen rest l (h _ (List.mem_cons_self _ _))
      (fun x hx => h x (List.mem_cons_of_mem _ hx))

/-- Claim C2, counterexample: the packer drops empty fragment lines, so
concatenating the units' contents does not reproduce the original
fragment sequence.  On the fragment lines `["", "a"]`
(external_flash_texts/external_flash_texts.py `split_diff_chunks`) the
single produced unit is `"a"`, losing the leading empty line. -/
theorem packer_concat_counterexample :
    eft_split_diff_chunks ["", "a"] 10 = ["a"] ∧
    joinLines "\n" (eft_split_diff_chunks ["", "a"] 10) ≠ joinLines "\n" ["", "a"] := by
  constructor
  · decide
  · decide

/-- Claim C2 (amended): for every list of nonempty fragment lines and
every limit, concatenating in order the contents of all units returned
by the packer (with the line separator between units) reproduces exactly
the original fragment sequence — no fragment is altered, truncated or
split mid-content; packing is a pure function of the line list and the
limit, hence deterministic.  (The original claim fails only for empty
fragment lines, which the accumulator-emptiness test of the Python loop
conflates with the initial state; the diff lines this pipeline packs
always start with `+` or `-` and are never empty.) -/
theorem packer_concat_reproduces :
    (∀ (lines : List String) (L : Nat), (∀ l ∈ lines, l ≠ "") →
      joinLines "\n" (eft_split_diff_chunks lines L) = joinLines "\n" lines) ∧
    (∀ (text : String) (L : Nat), (∀ l ∈ pySplitlines text, l ≠ "") →
      joinLines "\n" (split_text_into_chunks text L) = joinLines "\n" (pySplitlines text)) := by
  constructor
  · intro lines L h
    exact chunkLoop_join_start "\n" L lines h
  · intro text L h
    exact chunkLoop_join_start "\n" L (pySplitlines text) h

theorem packer_concat_reproduces_witness :
    ((∀ l ∈ ["ab", "cd", "ef"], l ≠ "") ∧
      joinLines "\n" (eft_split_diff_chunks ["ab", "cd", "ef"] 5) =
        joinLines "\n" ["ab", "cd", "ef"]) ∧
    ((∀ l ∈ pySplitlines "ab\ncd\nef", l ≠ "") ∧
      joinLines "\n" (split_text_into_chunks "ab\ncd\nef" 5) =
        joinLines "\n" (pySplitlines "ab\ncd\nef")) :=
  ⟨⟨by decide, packer_concat_reproduces.1 ["ab", "cd", "ef"] 5 (by decide)⟩,
   ⟨by decide, packer_concat_reproduces.2 "ab\ncd\nef" 5 (by decide)⟩⟩

theorem commonPrefixLen_self : ∀ l : List String, commonPrefixLen l l = l.length
  | [] => rfl
  | x :: xs => by
    rw [commonPrefixLen]
    simp [commonPrefixLen_self xs]

theorem commonPrefixLen_le_left : ∀ xs ys : List String, commonPrefixLen xs ys ≤ xs.length
  | [], ys => by cases ys <;> simp [commonPrefixLen]
  | x :: xs, [] => by simp [commonPrefixLen]
  | x :: xs, y :: ys => by
    rw [commonPrefixLen]
    by_cases h : x = y
    · simp only [if_pos h, List.length_cons]
      exact Nat.succ_le_succ (commonPrefixLen_le_left xs ys)
    · simp [if_neg h]

theorem commonPrefixLen_le_right : ∀ xs ys : List String, commonPrefixLen xs ys ≤ ys.length
  | [], ys => by cases ys <;> simp [commonPrefixLen]
  | x :: xs, [] => by simp [commonPrefixLen]
  | x :: xs, y :: ys => by
    rw [commonPrefixLen]
    by_cases h : x = y
    · simp only [if_pos h, List.length_cons]
      exact Nat.succ_le_succ (commonPrefixLen_le_right xs ys)
    · simp [if_neg h]

theorem candSize_le_left (a b : List String) (ahi bhi i j : Nat) :
    candSize a b ahi bhi i j ≤ ahi - i := by
  refine le_trans (commonPrefixLen_le_left _ _) ?_
  simp [List.length_take, List.length_drop]

theorem candSize_le_right (a b : List String) (ahi bhi i j : Nat) :
    candSize a b ahi bhi i j ≤ bhi - j := by
  refine le_trans (commonPrefixLen_le_right _ _) ?_
  simp [List.length_take, List.length_drop]

theorem flm_fold_fixed (a b : List String) (ahi bhi : Nat) :
    ∀ (pairs : List (Nat × Nat)) (best : Nat × Nat × Nat),
      (∀ ij ∈ pairs, candSize a b ahi bhi ij.1 ij.2 ≤ best.2.2) →
      pairs.foldl (fun best ij =>
        let k := candSize a b ahi bhi ij.1 ij.2
        if best.2.2 < k then (ij.1, ij.2, k) else best) best = best
  | [], best, _ => rfl
  | ij :: rest, best, h => by
    rw [List.foldl_cons]
    have hle := h ij (List.mem_cons_self _ _)
    simp only [if_neg (Nat.not_lt.mpr hle)]
    exact flm_fold_fixed a b ahi bhi rest best (fun x hx => h x (List.mem_cons_of_mem _ hx))

theorem candSize_self_zero (a : List String) :
    candSize a a a.length a.length 0 0 = a.length := by
  unfold candSize
  simp [commonPrefixLen_self]

theorem flm_self (a : List String) :
    findLongestMatch a a 0 a.length 0 a.length = (0, 0, a.length) := by
  unfold findLongestMatch
  rcases hn : a.length with _ | m
  · simp [windowPairs, hn]
  · have hpairs : windowPairs 0 (m + 1) 0 (m + 1) =
        (0, 0) :: ((List.range' 1 m).map (fun j => ((0 : Nat), j)) ++
          (List.range' 1 m).flatMap (fun i => (List.range' 0 (m + 1)).map (fun j => (i, j)))) := by
      unfold windowPairs
      simp only [Nat.sub_zero]
      rw [show List.range' 0 (m + 1) = 0 :: List.range' 1 m from rfl]
      simp only [List.flatMap_cons, List.map_cons, List.cons_append]
    rw [hpairs, List.foldl_cons]
    have h00 : candSize a a a.length a.length 0 0 = a.length := candSize_self_zero a
    rw [hn] at h00
    simp only [h00, if_pos (Nat.succ_pos m)]
    have hrest : ∀ ij ∈ (List.range' 1 m).map (fun j => ((0 : Nat), j)) ++
        (List.range' 1 m).flatMap (fun i => (List.range' 0 (m + 1)).map (fun j => (i, j))),
        candSize a a (m + 1) (m + 1) ij.1 ij.2 ≤ m + 1 := by
      intro ij hij
      rcases List.mem_append.mp hij with hmap | hflat
      · rcases List.mem_map.mp hmap with ⟨j, hj, hij2⟩
        have hj1 : 1 ≤ j ∧ j < 1 + m := List.mem_range'_1.mp hj
        have := candSize_le_right a a (m + 1) (m + 1) ij.1 ij.2
        subst hij2
        simp only at this ⊢
        omega
      · rcases List.mem_flatMap.mp hflat with ⟨i, hi, hmem⟩
        rcases List.mem_map.mp hmem with ⟨j, hj, hij2⟩
        have hi1 : 1 ≤ i ∧ i < 1 + m := List.mem_range'_1.mp hi
        have := candSize_le_left a a (m + 1) (m + 1) ij.1 ij.2
        subst hij2
        simp only at this ⊢
        omega
    exact flm_fold_fixed a a (m + 1) (m + 1) _ (0, 0, m + 1) hrest

theorem flm_empty_window (a b : List String) (alo blo bhi : Nat) :
    findLongestMatch a b alo alo blo bhi = (alo, blo, 0) := by
  unfold findLongestMatch windowPairs
  simp

theorem mbr_empty_window (a b : List String) (blo bhi : Nat) :
    ∀ (f alo : Nat), matchingBlocksRec f a b alo alo blo bhi = []
  | 0, alo => rfl
  | f + 1, alo => by
    rw [matchingBlocksRec]
    simp [flm_empty_window]

theorem mbr_self (a : List String) :
    ∀ f : Nat, matchingBlocksRec (f + 1) a a 0 a.length 0 a.length =
      if a.length = 0 then [] else [(0, 0, a.length)] := by
  intro f
  rw [matchingBlocksRec]
  rw [flm_self]
  by_cases hn : a.length = 0
  · simp [hn]
  · simp only [hn, if_neg hn, Nat.zero_add]
    rw [mbr_empty_window a a 0 0 f 0, mbr_empty_window a a a.length a.length f a.length]
    simp

theorem getMatchingBlocks_self (a : List String) :
    getMatchingBlocks a a = if a.length = 0 then [(0, 0, 0)]
      else [(0, 0, a.length), (a.length, a.length, 0)] := by
  unfold getMatchingBlocks
  rw [show a.length + a.length + 1 = (a.length + a.length) + 1 from rfl]
  rw [mbr_self a (a.length + a.length)]
  by_cases hn : a.length = 0
  · simp [hn, mergeAdjacent]
  · simp only [if_neg hn]
    unfold mergeAdjacent
    simp [hn]

theorem getOpcodes_self (a : List String) :
    getOpcodes a a = if a.length = 0 then []
      else [⟨"equal", 0, a.length, 0, a.length⟩] := by
  unfold getOpcodes
  rw [getMatchingBlocks_self]
  by_cases hn : a.length = 0
  · simp [hn]
  · simp only [if_neg hn]
    simp [hn]

theorem groupedOpcodes_single_equal (n : Nat) :
    groupedOpcodes 3 [⟨"equal", 0, n, 0, n⟩] = [] := by
  unfold groupedOpcodes
  have hcond : ¬ (6 < n ⊓ (n - 3 + 3) - (n - 3)) := by omega
  simp [Nat.zero_max, hcond]

theorem unifiedDiff_self (a : List String) : unifiedDiff a a = [] := by
  unfold unifiedDiff
  rw [getOpcodes_self]
  by_cases hn : a.length = 0
  · have h0 : groupedOpcodes 3 ([] : List Opcode) = [] := by decide
    simp [hn, h0]
  · simp only [if_neg hn]
    rw [groupedOpcodes_single_equal]
    simp

/-- Claim C4: for every text document, the text differ applied to the
document and itself yields the empty diff (`generate_diff t t = []`),
and on every run where the fetched text equals the stored text the
external_flash_texts pipeline short-circuits — it sends no embed,
writes no snapshot and computes no diff. -/
theorem text_diff_refl_and_short_circuit :
    (∀ t : String, generate_diff t t = []) ∧
    (∀ now t : String, eft_main now (some t) (some t) = .completed ⟨[], none, false⟩) := by
  constructor
  · intro t
    unfold generate_diff
    rw [unifiedDiff_self]
    rfl
  · intro now t
    unfold eft_main
    simp

theorem startsWith_char (s : String) (c : Char) :
    pyStartsWith s (String.mk [c]) = true ↔ ∃ t, s.data = c :: t := by
  unfold pyStartsWith
  show ([c].isPrefixOf s.data) = true ↔ _
  cases hd : s.data with
  | nil => simp [List.isPrefixOf]
  | cons d t =>
    simp [List.isPrefixOf, List.cons_eq_cons]
    exact eq_comm

/-- Claim C5: the text diff stage of the two text scripts — the
header-filtered `generate_diff` followed by the `additions`/`deletions`
selection of `main` — discards context lines and the `---`/`+++` file
markers and `@@` hunk ranges, and retains only pure addition and removal
lines: every record it keeps starts with `+` (an added line) or `-` (a
removed line), and none is a context or header line. -/
theorem text_diff_stage_only_add_remove :
    ∀ (old new l : String),
      l ∈ textAdditions (generate_diff old new) ++ textDeletions (generate_diff old new) →
      (pyStartsWith l "+" = true ∨ pyStartsWith l "-" = true) ∧
      pyStartsWith l " " = false ∧ pyStartsWith l "---" = false ∧
      pyStartsWith l "+++" = false ∧ pyStartsWith l "@@" = false := by
  intro old new l hl
  have hmain : (l ∈ generate_diff old new ∧ pyStartsWith l "+" = true) ∨
      (l ∈ generate_diff old new ∧ pyStartsWith l "-" = true) := by
    rcases List.mem_append.mp hl with h | h
    · exact Or.inl (List.mem_filter.mp h)
    · exact Or.inr (List.mem_filter.mp h)
  have hfilter : ∀ l2 : String, l2 ∈ generate_diff old new →
      pyStartsWith l2 "---" = false ∧ pyStartsWith l2 "+++" = false ∧
      pyStartsWith l2 "@@" = false := by
    intro l2 h2
    have := (List.mem_filter.mp h2).2
    simp only [decide_eq_true_eq] at this
    push_neg at this
    simpa using this
  rcases hmain with ⟨hmem, hpre⟩ | ⟨hmem, hpre⟩
  · obtain ⟨t, ht⟩ := (startsWith_char l '+').mp hpre
    refine ⟨Or.inl hpre, ?_, (hfilter l hmem).1, (hfilter l hmem).2.1, ?_⟩
    · unfold pyStartsWith
      rw [ht]
      rfl
    · unfold pyStartsWith
      rw [ht]
      rfl
  · obtain ⟨t, ht⟩ := (startsWith_char l '-').mp hpre
    refine ⟨Or.inr hpre, ?_, (hfilter l hmem).1, ?_, ?_⟩
    · unfold pyStartsWith
      rw [ht]
      rfl
    · unfold pyStartsWith
      rw [ht]
      rfl
    · unfold pyStartsWith
      rw [ht]
      rfl

theorem text_diff_stage_only_add_remove_witness :
    ("+d" ∈ textAdditions (generate_diff "a\nb\nc" "a\nb\nd") ++
      textDeletions (generate_diff "a\nb\nc" "a\nb\nd")) ∧
    ((pyStartsWith "+d" "+" = true ∨ pyStartsWith "+d" "-" = true) ∧
      pyStartsWith "+d" " " = false ∧ pyStartsWith "+d" "---" = false ∧
      pyStartsWith "+d" "+++" = false ∧ pyStartsWith "+d" "@@" = false) :=
  ⟨by decide, text_diff_stage_only_add_remove "a\nb\nc" "a\nb\nd" "+d" (by decide)⟩

mutual
theorem JsonV.beq_refl : ∀ d : JsonV, JsonV.beq d d = true
  | .null => rfl
  | .bool b => by simp [JsonV.beq]
  | .num n => by simp [JsonV.beq]
  | .str s => by simp [JsonV.beq]
  | .arr xs => by rw [JsonV.beq]; exact beqArr_refl xs
  | .obj fs => by rw [JsonV.beq]; exact beqObj_refl fs

theorem beqArr_refl : ∀ xs : List JsonV, beqArr xs xs = true
  | [] => rfl
  | x :: xs => by
    rw [beqArr]
    simp [JsonV.beq_refl x, beqArr_refl xs]

theorem beqObj_refl : ∀ fs : List (String × JsonV), beqObj fs fs = true
  | [] => rfl
  | (k, v) :: fs => by
    rw [beqObj]
    simp [JsonV.beq_refl v, beqObj_refl fs]
end

theorem memBeq_head (x : JsonV) (ys : List JsonV) : memBeq x (x :: ys) = true := by
  simp [memBeq, JsonV.beq_refl]

theorem eraseBeq_head (x : JsonV) (ys : List JsonV) : eraseBeq (x :: ys) x = ys := by
  rw [eraseBeq]
  simp [JsonV.beq_refl]

theorem unmatchedIdx_self : ∀ (i : Nat) (xs : List JsonV), unmatchedIdx i xs xs = []
  | _, [] => rfl
  | i, x :: xs => by
    rw [unmatchedIdx]
    simp [memBeq_head x xs, eraseBeq_head x xs, unmatchedIdx_self (i + 1) xs]

theorem scalarDiff_refl (path : String) (x : JsonV) : scalarDiff path x x = emptyDiff := by
  simp [scalarDiff, JsonV.beq_refl]

theorem jsonLookup_not_isNone_of_mem :
    ∀ (fs : List (String × JsonV)) (k : String) (v : JsonV),
      (k, v) ∈ fs → (jsonLookup fs k).isNone = false
  | [], k, v, h => by cases h
  | (k2, v2) :: rest, k, v, h => by
    rw [jsonLookup]
    by_cases he : k2 = k
    · simp [he]
    · simp only [if_neg he]
      rcases List.mem_cons.mp h with heq | hmem
      · rw [Prod.mk.injEq] at heq
        exact absurd heq.1.symm he
      · exact jsonLookup_not_isNone_of_mem rest k v hmem

theorem jsonLookup_mem_nodup :
    ∀ (fs : List (String × JsonV)), (fs.map Prod.fst).Nodup →
      ∀ (k : String) (v : JsonV), (k, v) ∈ fs → jsonLookup fs k = some v
  | [], _, k, v, h => by cases h
  | (k2, v2) :: rest, hnd, k, v, h => by
    rw [jsonLookup]
    rcases List.mem_cons.mp h with heq | hmem
    · rw [Prod.mk.injEq] at heq
      rw [if_pos heq.1.symm, heq.2]
    · by_cases he : k2 = k
      · exfalso
        rw [List.map_cons, List.nodup_cons] at hnd
        apply hnd.1
        rw [he]
        exact List.mem_map.mpr ⟨(k, v), hmem, rfl⟩
      · rw [if_neg he]
        have hnd2 : (rest.map Prod.fst).Nodup := by
          rw [List.map_cons, List.nodup_cons] at hnd
          exact hnd.2
        exact jsonLookup_mem_nodup rest hnd2 k v hmem

mutual
theorem deepDiffWalk_refl : ∀ (d : JsonV), d.Wf → ∀ path : String,
    deepDiffWalk path d d = emptyDiff
  | .null, _, path => scalarDiff_refl path .null
  | .bool b, _, path => scalarDiff_refl path (.bool b)
  | .num n, _, path => scalarDiff_refl path (.num n)
  | .str s, _, path => scalarDiff_refl path (.str s)
  | .arr xs, _, path => by
    show (⟨[], (unmatchedIdx 0 xs xs).map (fun p => idxPath path p.1), [],
      (unmatchedIdx 0 xs xs).map (fun p => idxPath path p.1), [], []⟩ : DeepDiffResult) =
        emptyDiff
    rw [unmatchedIdx_self]
    rfl
  | .obj fs, hwf, path => by
    cases hwf with
    | obj _ hnd hv =>
      show mergeDiff
        ⟨(fs.filter (fun kv => (jsonLookup fs kv.1).isNone)).map (fun kv => childPath path kv.1),
         [],
         (fs.filter (fun kv => (jsonLookup fs kv.1).isNone)).map (fun kv => childPath path kv.1),
         [], [], []⟩ (walkFields path fs fs) = emptyDiff
      have hfilter : (fs.filter (fun kv => (jsonLookup fs kv.1).isNone)) = [] := by
        apply List.filter_eq_nil_iff.mpr
        intro kv hkv
        simp [jsonLookup_not_isNone_of_mem fs kv.1 kv.2 hkv]
      rw [hfilter]
      rw [walkFields_refl fs hnd hv fs (fun kv h => h) path]
      rfl

theorem walkFields_refl : ∀ (fs : List (String × JsonV)),
    (fs.map Prod.fst).Nodup → (∀ kv ∈ fs, JsonV.Wf kv.2) →
    ∀ (gs : List (String × JsonV)), (∀ kv ∈ gs, kv ∈ fs) → ∀ path : String,
      walkFields path fs gs = emptyDiff
  | fs, hnd, hv, [], _, path => rfl
  | fs, hnd, hv, (k, w) :: gs, hsub, path => by
    have hmem : (k, w) ∈ fs := hsub _ (List.mem_cons_self _ _)
    rw [walkFields]
    rw [jsonLookup_mem_nodup fs hnd k w hmem]
    show mergeDiff (deepDiffWalk (childPath path k) w w) (walkFields path fs gs) = emptyDiff
    rw [deepDiffWalk_refl w (hv _ hmem) (childPath path k)]
    rw [walkFields_refl fs hnd hv gs (fun kv h => hsub kv (List.mem_cons_of_mem _ h)) path]
    rfl
end

theorem deepDiff_refl (d : JsonV) (h : d.Wf) : deepDiff d d = emptyDiff :=
  deepDiffWalk_refl d h "root"

/-- Claim C6: on every first run (no stored snapshot), each pipeline
emits exactly one informational (blue) unit announcing snapshot
initialization, saves the fetched document as the snapshot, and computes
no diff (furnidata/furnidata.py lines 227-238,
external_variables/external_variables.py lines 84-95). -/
theorem first_run_initial_snapshot :
    (∀ (now : String) (d : JsonV), furnidata_main now (some d) none =
      .ok ⟨[initialFurnidataEmbed now], true, false⟩) ∧
    (∀ now t : String, ev_main now (some t) none =
      .completed ⟨[⟨"Initial External Variables Snapshot",
        "Initial External Variables Snapshot saved on " ++ now ++ ".", 3447003⟩],
        some t, false⟩) :=
  ⟨fun _ _ => rfl, fun _ _ => rfl⟩

/-- Claim C3, counterexample: the claimed per-resource-kind asymmetry
fails — on an unchanged-document run the structured (furnidata) script
emits zero units, not one informational "no changes" unit.  `main`
computes a falsy `DeepDiff` for equal documents and takes the branch
that only prints (furnidata/furnidata.py lines 246-247), never calling
`send_discord_diff_notification`, which is where the "no changes" embed
lives. -/
theorem unchanged_structured_zero_units_counterexample :
    furnidata_main "T" (some (JsonV.obj [("a", JsonV.num 1)]))
        (some (JsonV.obj [("a", JsonV.num 1)])) = .ok ⟨[], false, true⟩ ∧
    ¬ (FurnidataRun.embeds ⟨[], false, true⟩).length = 1 :=
  ⟨rfl, by decide⟩

/-- Claim C3 (amended): when the newly fetched document equals the
stored snapshot, both resource kinds emit zero units — the text/plain
run returns before diffing and the structured run computes a falsy diff
and only prints.  The structured script's informational "no changes"
unit is emitted exactly on runs whose diff is truthy but yields no
renderable fragment (for example a diff containing only removal
records). -/
theorem unchanged_document_zero_units :
    (∀ (now : String) (d : JsonV), d.Wf →
      furnidata_main now (some d) (some d) = .ok ⟨[], false, true⟩) ∧
    (∀ now t : String, ev_main now (some t) (some t) = .completed ⟨[], none, false⟩) ∧
    (∀ (now : String) (diff : DeepDiffResult) (l n : JsonV),
      buildDiffEmbeds diff l n = .ok [] →
      send_discord_diff_notification now diff l n =
        .ok [⟨"Furnidata Check", "No changes detected as of " ++ now, 3447003⟩]) := by
  refine ⟨?_, ?_, ?_⟩
  · intro now d hwf
    unfold furnidata_main
    dsimp only
    rw [deepDiff_refl d hwf]
    rfl
  · intro now t
    simp [ev_main]
  · intro now diff l n h
    unfold send_discord_diff_notification
    rw [h]
    rfl

theorem unchanged_document_zero_units_witness :
    (furnidata_main "T" (some (JsonV.obj [("a", JsonV.num 1)]))
        (some (JsonV.obj [("a", JsonV.num 1)])) = .ok ⟨[], false, true⟩) ∧
    (ev_main "T" (some "x=1") (some "x=1") = .completed ⟨[], none, false⟩) ∧
    (send_discord_diff_notification "T" ⟨[], [], [childPath "root" "x"], [], [], []⟩
        (JsonV.obj []) (JsonV.obj []) =
      .ok [⟨"Furnidata Check", "No changes detected as of " ++ "T", 3447003⟩]) := by
  refine ⟨?_, ?_, ?_⟩
  · apply unchanged_document_zero_units.1
    apply JsonV.Wf.obj
    · simp
    · intro kv hkv
      simp only [List.mem_singleton] at hkv
      subst hkv
      exact JsonV.Wf.num 1
  · exact unchanged_document_zero_units.2.1 "T" "x=1"
  · exact unchanged_document_zero_units.2.2 "T" ⟨[], [], [childPath "root" "x"], [], [], []⟩
      (JsonV.obj []) (JsonV.obj []) rfl

theorem except_bind_ok {α β : Type} (a : α) (g : α → Except String β) :
    (Except.ok a >>= g) = g a := rfl

theorem except_bind_error {α β : Type} (e : String) (g : α → Except String β) :
    ((Except.error e : Except String α) >>= g) = Except.error e := rfl

theorem exceptMapM_ok_length {α β : Type} (f : α → Except String β) :
    ∀ (l : List α) (es : List β), exceptMapM f l = .ok es → es.length = l.length
  | [], es, h => by
    rw [exceptMapM] at h
    cases h
    rfl
  | x :: xs, es, h => by
    rw [exceptMapM] at h
    cases hfx : f x with
    | error e => rw [hfx, except_bind_error] at h; cases h
    | ok b =>
      rw [hfx, except_bind_ok] at h
      cases hrec : exceptMapM f xs with
      | error e => rw [hrec, except_bind_error] at h; cases h
      | ok bs =>
        rw [hrec, except_bind_ok] at h
        cases h
        simp [exceptMapM_ok_length f xs bs hrec]

theorem exceptMapM_ok_forall {α β : Type} (f : α → Except String β) (P : β → Prop)
    (hf : ∀ x b, f x = .ok b → P b) :
    ∀ (l : List α) (es : List β), exceptMapM f l = .ok es → ∀ e ∈ es, P e
  | [], es, h => by
    rw [exceptMapM] at h
    cases h
    intro e he
    cases he
  | x :: xs, es, h => by
    rw [exceptMapM] at h
    cases hfx : f x with
    | error e => rw [hfx, except_bind_error] at h; cases h
    | ok b =>
      rw [hfx, except_bind_ok] at h
      cases hrec : exceptMapM f xs with
      | error e => rw [hrec, except_bind_error] at h; cases h
      | ok bs =>
        rw [hrec, except_bind_ok] at h
        cases h
        intro e he
        rcases List.mem_cons.mp he with he1 | he2
        · exact he1 ▸ hf x b hfx
        · exact exceptMapM_ok_forall f P hf xs bs hrec e he2

theorem exceptMapM_of_mem {α β : Type} (f : α → Except String β) :
    ∀ (l : List α) (es : List β), exceptMapM f l = .ok es → ∀ x ∈ l,
      ∃ e, f x = .ok e ∧ e ∈ es
  | [], es, h, x, hx => by cases hx
  | y :: xs, es, h, x, hx => by
    rw [exceptMapM] at h
    cases hfy : f y with
    | error e => rw [hfy, except_bind_error] at h; cases h
    | ok b =>
      rw [hfy, except_bind_ok] at h
      cases hrec : exceptMapM f xs with
      | error e => rw [hrec, except_bind_error] at h; cases h
      | ok bs =>
        rw [hrec, except_bind_ok] at h
        cases h
        rcases List.mem_cons.mp hx with hx1 | hx2
        · exact ⟨b, hx1 ▸ hfy, List.mem_cons_self _ _⟩
        · obtain ⟨e, he1, he2⟩ := exceptMapM_of_mem f xs bs hrec x hx2
          exact ⟨e, he1, List.mem_cons_of_mem _ he2⟩

theorem exceptMapM_total {α β : Type} (f : α → Except String β) :
    ∀ l : List α, (∀ x ∈ l, ∃ b, f x = .ok b) →
      ∃ es : List β, exceptMapM f l = .ok es ∧ es.length = l.length
  | [], _ => ⟨[], rfl, rfl⟩
  | x :: xs, h => by
    obtain ⟨b, hb⟩ := h x (List.mem_cons_self _ _)
    obtain ⟨bs, hbs, hlen⟩ := exceptMapM_total f xs (fun y hy => h y (List.mem_cons_of_mem _ hy))
    refine ⟨b :: bs, ?_, by simp [hlen]⟩
    rw [exceptMapM, hb, except_bind_ok, hbs, except_bind_ok]
    rfl

theorem nodup_append_singleton {α : Type} (l : List α) (k : α) (h : l.Nodup) (hk : k ∉ l) :
    (l ++ [k]).Nodup := by
  rw [List.nodup_append]
  refine ⟨h, List.nodup_singleton _, ?_⟩
  intro a ha hb
  rw [List.mem_singleton] at hb
  exact hk (hb ▸ ha)

theorem upsertObj_keys (k : List JKey) (v : JsonV) :
    ∀ acc : List (List JKey × JsonV),
      (upsertObj k v acc).map Prod.fst =
        if k ∈ acc.map Prod.fst then acc.map Prod.fst else acc.map Prod.fst ++ [k]
  | [] => by simp [upsertObj]
  | (k2, v2) :: rest => by
    rw [upsertObj]
    by_cases he : k2 = k
    · subst he
      simp
    · rw [if_neg he]
      simp only [List.map_cons]
      rw [upsertObj_keys k v rest]
      by_cases hm : k ∈ rest.map Prod.fst
      · rw [if_pos hm, if_pos (List.mem_cons_of_mem _ hm)]
      · rw [if_neg hm, if_neg ?_]
        · simp
        · intro hc
          rcases List.mem_cons.mp hc with h1 | h2
          · exact he h1.symm
          · exact hm h2

theorem upsertObj_mem (k : List JKey) (v : JsonV) :
    ∀ (acc : List (List JKey × JsonV)) (x : List JKey × JsonV),
      x ∈ upsertObj k v acc → x = (k, v) ∨ x ∈ acc
  | [], x, h => by
    rw [upsertObj] at h
    exact Or.inl (List.mem_singleton.mp h)
  | (k2, v2) :: rest, x, h => by
    rw [upsertObj] at h
    by_cases he : k2 = k
    · rw [if_pos he] at h
      subst he
      rcases List.mem_cons.mp h with h1 | h2
      · exact Or.inl h1
      · exact Or.inr (List.mem_cons_of_mem _ h2)
    · rw [if_neg he] at h
      rcases List.mem_cons.mp h with h1 | h2
      · exact Or.inr (by rw [h1]; exact List.mem_cons_self _ _)
      · rcases upsertObj_mem k v rest x h2 with h3 | h4
        · exact Or.inl h3
        · exact Or.inr (List.mem_cons_of_mem _ h4)

theorem upsertObj_nodup (k : List JKey) (v : JsonV) (acc : List (List JKey × JsonV))
    (h : (acc.map Prod.fst).Nodup) : ((upsertObj k v acc).map Prod.fst).Nodup := by
  rw [upsertObj_keys]
  by_cases hm : k ∈ acc.map Prod.fst
  · rw [if_pos hm]
    exact h
  · rw [if_neg hm]
    exact nodup_append_singleton _ _ h hm

theorem upsertObj_keys_toFinset (k : List JKey) (v : JsonV) (acc : List (List JKey × JsonV)) :
    ((upsertObj k v acc).map Prod.fst).toFinset = insert k ((acc.map Prod.fst).toFinset) := by
  rw [upsertObj_keys]
  by_cases hm : k ∈ acc.map Prod.fst
  · rw [if_pos hm, Finset.insert_eq_self.mpr (List.mem_toFinset.mpr hm)]
  · rw [if_neg hm, List.toFinset_append]
    rw [show ([k] : List (List JKey)).toFinset = {k} by simp]
    rw [Finset.union_comm, ← Finset.insert_eq]

theorem upsertMods_keys (parent : List JKey) (field : JKey) (ov nv : JsonV) :
    ∀ acc : List (List JKey × List (JKey × JsonV × JsonV)),
      (upsertMods parent field ov nv acc).map Prod.fst =
        if parent ∈ acc.map Prod.fst then acc.map Prod.fst else acc.map Prod.fst ++ [parent]
  | [] => by simp [upsertMods]
  | (p, ms) :: rest => by
    rw [upsertMods]
    by_cases he : p = parent
    · subst he
      simp
    · rw [if_neg he]
      simp only [List.map_cons]
      rw [upsertMods_keys parent field ov nv rest]
      by_cases hm : parent ∈ rest.map Prod.fst
      · rw [if_pos hm, if_pos (List.mem_cons_of_mem _ hm)]
      · rw [if_neg hm, if_neg ?_]
        · simp
        · intro hc
          rcases List.mem_cons.mp hc with h1 | h2
          · exact he h1.symm
          · exact hm h2

theorem upsertMods_mem (parent : List JKey) (field : JKey) (ov nv : JsonV) :
    ∀ (acc : List (List JKey × List (JKey × JsonV × JsonV)))
      (g : List JKey × List (JKey × JsonV × JsonV)),
      g ∈ upsertMods parent field ov nv acc → g.1 = parent ∨ g ∈ acc
  | [], g, h => by
    rw [upsertMods] at h
    rw [List.mem_singleton.mp h]
    exact Or.inl rfl
  | (p, ms) :: rest, g, h => by
    rw [upsertMods] at h
    by_cases he : p = parent
    · rw [if_pos he] at h
      rcases List.mem_cons.mp h with h1 | h2
      · rw [h1]
        exact Or.inl he
      · exact Or.inr (List.mem_cons_of_mem _ h2)
    · rw [if_neg he] at h
      rcases List.mem_cons.mp h with h1 | h2
      · exact Or.inr (by rw [h1]; exact List.mem_cons_self _ _)
      · rcases upsertMods_mem parent field ov nv rest g h2 with h3 | h4
        · exact Or.inl h3
        · exact Or.inr (List.mem_cons_of_mem _ h4)

theorem upsertMods_nodup (parent : List JKey) (field : JKey) (ov nv : JsonV)
    (acc : List (List JKey × List (JKey × JsonV × JsonV)))
    (h : (acc.map Prod.fst).Nodup) :
    ((upsertMods parent field ov nv acc).map Prod.fst).Nodup := by
  rw [upsertMods_keys]
  by_cases hm : parent ∈ acc.map Prod.fst
  · rw [if_pos hm]
    exact h
  · rw [if_neg hm]
    exact nodup_append_singleton _ _ h hm

theorem upsertMods_keys_toFinset (parent : List JKey) (field : JKey) (ov nv : JsonV)
    (acc : List (List JKey × List (JKey × JsonV × JsonV))) :
    ((upsertMods parent field ov nv acc).map Prod.fst).toFinset =
      insert parent ((acc.map Prod.fst).toFinset) := by
  rw [upsertMods_keys]
  by_cases hm : parent ∈ acc.map Prod.fst
  · rw [if_pos hm, Finset.insert_eq_self.mpr (List.mem_toFinset.mpr hm)]
  · rw [if_neg hm, List.toFinset_append]
    rw [show ([parent] : List (List JKey)).toFinset = {parent} by simp]
    rw [Finset.union_comm, ← Finset.insert_eq]

theorem upsertMods_keys_mono (parent : List JKey) (field : JKey) (ov nv : JsonV)
    (acc : List (List JKey × List (JKey × JsonV × JsonV))) (q : List JKey)
    (h : q ∈ acc.map Prod.fst ∨ q = parent) :
    q ∈ (upsertMods parent field ov nv acc).map Prod.fst := by
  rw [upsertMods_keys]
  by_cases hm : parent ∈ acc.map Prod.fst
  · rw [if_pos hm]
    rcases h with h1 | h2
    · exact h1
    · exact h2 ▸ hm
  · rw [if_neg hm]
    rcases h with h1 | h2
    · exact List.mem_append.mpr (Or.inl h1)
    · exact List.mem_append.mpr (Or.inr (by rw [h2]; exact List.mem_singleton.mpr rfl))

theorem newObjectStep_resolved (new_data : JsonV) (acc : List (List JKey × JsonV))
    (path : String) (v : JsonV)
    (hv : get_by_path new_data (parse_diff_path path) = some v) :
    newObjectStep new_data acc path = upsertObj (parse_diff_path path) v acc := by
  unfold newObjectStep
  simp [hv]

theorem buildNewObjects_fold_spec (new_data : JsonV) :
    ∀ (added : List String) (acc : List (List JKey × JsonV)),
      (∀ p ∈ added, ∃ v, get_by_path new_data (parse_diff_path p) = some v) →
      (acc.map Prod.fst).Nodup →
      (∀ kv ∈ acc, get_by_path new_data kv.1 = some kv.2) →
      ((added.foldl (newObjectStep new_data) acc).map Prod.fst).Nodup ∧
      ((added.foldl (newObjectStep new_data) acc).map Prod.fst).toFinset =
        (acc.map Prod.fst).toFinset ∪ (added.map parse_diff_path).toFinset ∧
      (∀ kv ∈ added.foldl (newObjectStep new_data) acc,
        get_by_path new_data kv.1 = some kv.2)
  | [], acc, hres, hnd, hmem => ⟨hnd, by simp, hmem⟩
  | p :: rest, acc, hres, hnd, hmem => by
    obtain ⟨v, hv⟩ := hres p (List.mem_cons_self _ _)
    rw [List.foldl_cons, newObjectStep_resolved new_data acc p v hv]
    have hnd2 := upsertObj_nodup (parse_diff_path p) v acc hnd
    have hmem2 : ∀ kv ∈ upsertObj (parse_diff_path p) v acc,
        get_by_path new_data kv.1 = some kv.2 := by
      intro kv hkv
      rcases upsertObj_mem _ _ acc kv hkv with h1 | h2
      · rw [h1]
        exact hv
      · exact hmem kv h2
    obtain ⟨r1, r2, r3⟩ := buildNewObjects_fold_spec new_data rest
      (upsertObj (parse_diff_path p) v acc)
      (fun q hq => hres q (List.mem_cons_of_mem _ hq)) hnd2 hmem2
    refine ⟨r1, ?_, r3⟩
    rw [r2, upsertObj_keys_toFinset]
    simp only [List.map_cons, List.toFinset_cons]
    ext x
    simp

theorem modsStep_ok (acc : List (List JKey × List (JKey × JsonV × JsonV)))
    (pc : String × JsonV × JsonV) (field : JKey)
    (h : (parse_diff_path pc.1).getLast? = some field) :
    modsStep acc pc =
      .ok (upsertMods (parse_diff_path pc.1).dropLast field pc.2.1 pc.2.2 acc) := by
  unfold modsStep
  simp [h]

theorem modsByParent_fold_spec :
    ∀ (vc : List (String × JsonV × JsonV))
      (acc : List (List JKey × List (JKey × JsonV × JsonV))),
      (∀ pc ∈ vc, parse_diff_path pc.1 ≠ []) →
      (acc.map Prod.fst).Nodup →
      ∃ groups, exceptFoldl modsStep acc vc = .ok groups ∧
        (groups.map Prod.fst).Nodup ∧
        (groups.map Prod.fst).toFinset = (acc.map Prod.fst).toFinset ∪
          (vc.map (fun pc => (parse_diff_path pc.1).dropLast)).toFinset ∧
        (∀ g ∈ groups, g.1 ∈ acc.map Prod.fst ∨
          ∃ pc ∈ vc, g.1 = (parse_diff_path pc.1).dropLast) ∧
        (∀ pc ∈ vc, (parse_diff_path pc.1).dropLast ∈ groups.map Prod.fst) ∧
        (∀ q ∈ acc.map Prod.fst, q ∈ groups.map Prod.fst)
  | [], acc, hne, hnd => by
    refine ⟨acc, rfl, hnd, by simp, ?_, ?_, ?_⟩
    · intro g hg
      exact Or.inl (List.mem_map.mpr ⟨g, hg, rfl⟩)
    · intro pc hpc
      cases hpc
    · intro q hq
      exact hq
  | pc :: rest, acc, hne, hnd => by
    have hne1 : parse_diff_path pc.1 ≠ [] := hne pc (List.mem_cons_self _ _)
    obtain ⟨field, hfield⟩ := Option.isSome_iff_exists.mp (List.getLast?_isSome.mpr hne1)
    rw [exceptFoldl, modsStep_ok acc pc field hfield, except_bind_ok]
    set parent := (parse_diff_path pc.1).dropLast with hparent
    set acc2 := upsertMods parent field pc.2.1 pc.2.2 acc with hacc2
    have hnd2 : (acc2.map Prod.fst).Nodup := upsertMods_nodup _ _ _ _ acc hnd
    obtain ⟨groups, hg1, hg2, hg3, hg4, hg5, hg6⟩ := modsByParent_fold_spec rest acc2
      (fun q hq => hne q (List.mem_cons_of_mem _ hq)) hnd2
    refine ⟨groups, hg1, hg2, ?_, ?_, ?_, ?_⟩
    · rw [hg3, hacc2, upsertMods_keys_toFinset]
      simp only [List.map_cons, List.toFinset_cons]
      ext x
      simp
    · intro g hg
      rcases hg4 g hg with h1 | h2
      · rw [hacc2, upsertMods_keys] at h1
        by_cases hm : parent ∈ acc.map Prod.fst
        · rw [if_pos hm] at h1
          exact Or.inl h1
        · rw [if_neg hm] at h1
          rcases List.mem_append.mp h1 with h3 | h4
          · exact Or.inl h3
          · rw [List.mem_singleton] at h4
            exact Or.inr ⟨pc, List.mem_cons_self _ _, h4⟩
      · obtain ⟨q, hq1, hq2⟩ := h2
        exact Or.inr ⟨q, List.mem_cons_of_mem _ hq1, hq2⟩
    · intro q hq
      rcases List.mem_cons.mp hq with h1 | h2
      · subst h1
        exact hg6 parent (upsertMods_keys_mono _ _ _ _ acc parent (Or.inr rfl))
      · exact hg5 q h2
    · intro q hq
      exact hg6 q (upsertMods_keys_mono _ _ _ _ acc q (Or.inl hq))

theorem generate_new_object_diff_ok (v : JsonV) (h : v.isObj = true) :
    ∃ s, generate_new_object_diff v = .ok s := by
  cases v with
  | obj fs => exact ⟨_, rfl⟩
  | null => simp [JsonV.isObj] at h
  | bool b => simp [JsonV.isObj] at h
  | num n => simp [JsonV.isObj] at h
  | str s2 => simp [JsonV.isObj] at h
  | arr xs => simp [JsonV.isObj] at h

theorem generate_object_diff_ok (old_obj new_obj : JsonV)
    (mods : List (JKey × JsonV × JsonV))
    (h1 : old_obj.isObj = true) (h2 : new_obj.isObj = true) :
    ∃ s, generate_object_diff old_obj new_obj mods = .ok s := by
  cases new_obj with
  | obj gs =>
    cases old_obj with
    | obj fs => exact ⟨_, rfl⟩
    | null => simp [JsonV.isObj] at h1
    | bool b => simp [JsonV.isObj] at h1
    | num n => simp [JsonV.isObj] at h1
    | str s2 => simp [JsonV.isObj] at h1
    | arr xs => simp [JsonV.isObj] at h1
  | null => simp [JsonV.isObj] at h2
  | bool b => simp [JsonV.isObj] at h2
  | num n => simp [JsonV.isObj] at h2
  | str s2 => simp [JsonV.isObj] at h2
  | arr xs => simp [JsonV.isObj] at h2

theorem newObjectEmbed_ok (kv : List JKey × JsonV) (s : String)
    (h : generate_new_object_diff kv.2 = .ok s) :
    newObjectEmbed kv = .ok (mkNewObjectEmbed s) := by
  unfold newObjectEmbed
  rw [h, except_bind_ok]
  rfl

theorem modGroupEmbed_ok (local_data new_data : JsonV)
    (pm : List JKey × List (JKey × JsonV × JsonV)) (s : String)
    (h : generate_object_diff ((get_by_path local_data pm.1).getD (JsonV.obj []))
      ((get_by_path new_data pm.1).getD (JsonV.obj [])) pm.2 = .ok s) :
    modGroupEmbed local_data new_data pm = .ok (mkModEmbed s) := by
  unfold modGroupEmbed
  dsimp only
  rw [h, except_bind_ok]
  rfl

theorem buildDiffEmbeds_ok_parts (diff : DeepDiffResult) (local_data new_data : JsonV)
    (Hadd : ∀ p ∈ diff.dictionary_item_added ++ diff.iterable_item_added,
      ∃ v, get_by_path new_data (parse_diff_path p) = some v ∧ v.isObj = true)
    (Hvc : ∀ pc ∈ diff.values_changed, parse_diff_path pc.1 ≠ [])
    (Hpar : ∀ pc ∈ diff.values_changed,
      ((get_by_path local_data ((parse_diff_path pc.1).dropLast)).getD
        (JsonV.obj [])).isObj = true ∧
      ((get_by_path new_data ((parse_diff_path pc.1).dropLast)).getD
        (JsonV.obj [])).isObj = true) :
    ∃ newEmbeds groups modEmbeds,
      buildDiffEmbeds diff local_data new_data = .ok (newEmbeds ++ modEmbeds) ∧
      modificationsByParent diff.values_changed = .ok groups ∧
      exceptMapM (modGroupEmbed local_data new_data) groups = .ok modEmbeds ∧
      newEmbeds.length =
        ((diff.dictionary_item_added ++ diff.iterable_item_added).map
          parse_diff_path).toFinset.card ∧
      modEmbeds.length =
        (diff.values_changed.map (fun pc => (parse_diff_path pc.1).dropLast)).toFinset.card ∧
      (∀ pc ∈ diff.values_changed,
        (parse_diff_path pc.1).dropLast ∈ groups.map Prod.fst) := by
  set added := diff.dictionary_item_added ++ diff.iterable_item_added with hadded
  obtain ⟨nd1, tf1, res1⟩ := buildNewObjects_fold_spec new_data added []
    (fun p hp => (Hadd p hp).imp (fun v hv => hv.1)) (by simp) (by intro kv h; cases h)
  have hNOdef : buildNewObjects added new_data = added.foldl (newObjectStep new_data) [] := rfl
  rw [← hNOdef] at nd1 tf1 res1
  set NO := buildNewObjects added new_data with hNO
  have tf1' : (NO.map Prod.fst).toFinset = (added.map parse_diff_path).toFinset := by
    rw [tf1]
    simp
  have hNOlen : NO.length = (added.map parse_diff_path).toFinset.card := by
    calc NO.length = (NO.map Prod.fst).length := (List.length_map _ _).symm
    _ = (NO.map Prod.fst).toFinset.card := (List.toFinset_card_of_nodup nd1).symm
    _ = (added.map parse_diff_path).toFinset.card := by rw [tf1']
  have hNOok : ∀ kv ∈ NO, ∃ e, newObjectEmbed kv = .ok e := by
    intro kv hkv
    have hkey : kv.1 ∈ (added.map parse_diff_path).toFinset := by
      rw [← tf1']
      exact List.mem_toFinset.mpr (List.mem_map.mpr ⟨kv, hkv, rfl⟩)
    obtain ⟨pth, hpth⟩ := List.mem_map.mp (List.mem_toFinset.mp hkey)
    obtain ⟨v, hv1, hv2⟩ := Hadd pth hpth.1
    have hres : get_by_path new_data kv.1 = some kv.2 := res1 kv hkv
    rw [← hpth.2] at hres
    rw [hv1] at hres
    cases hres
    obtain ⟨s, hs⟩ := generate_new_object_diff_ok kv.2 hv2
    exact ⟨mkNewObjectEmbed s, newObjectEmbed_ok kv s hs⟩
  obtain ⟨newEmbeds, hNE, hNElen⟩ := exceptMapM_total newObjectEmbed NO hNOok
  obtain ⟨groups, hG, gnd, gtf, gmem, gparents, _⟩ :=
    modsByParent_fold_spec diff.values_changed [] Hvc (by simp)
  have hGdef : modificationsByParent diff.values_changed = .ok groups := hG
  have gtf' : (groups.map Prod.fst).toFinset =
      (diff.values_changed.map (fun pc => (parse_diff_path pc.1).dropLast)).toFinset := by
    rw [gtf]
    simp
  have hGlen : groups.length =
      (diff.values_changed.map (fun pc => (parse_diff_path pc.1).dropLast)).toFinset.card := by
    calc groups.length = (groups.map Prod.fst).length := (List.length_map _ _).symm
    _ = (groups.map Prod.fst).toFinset.card := (List.toFinset_card_of_nodup gnd).symm
    _ = _ := by rw [gtf']
  have hGok : ∀ g ∈ groups, ∃ e, modGroupEmbed local_data new_data g = .ok e := by
    intro g hg
    rcases gmem g hg with h1 | ⟨pc, hpc, hpar⟩
    · simp at h1
    · obtain ⟨ho, hn⟩ := Hpar pc hpc
      rw [← hpar] at ho hn
      obtain ⟨s, hs⟩ := generate_object_diff_ok _ _ g.2 ho hn
      exact ⟨mkModEmbed s, modGroupEmbed_ok local_data new_data g s hs⟩
  obtain ⟨modEmbeds, hME, hMElen⟩ :=
    exceptMapM_total (modGroupEmbed local_data new_data) groups hGok
  refine ⟨newEmbeds, groups, modEmbeds, ?_, hGdef, hME, ?_, ?_, gparents⟩
  · unfold buildDiffEmbeds
    rw [← hadded, ← hNO]
    dsimp only
    rw [hNE, except_bind_ok, hGdef, except_bind_ok, hME, except_bind_ok]
    rfl
  · rw [hNElen, hNOlen]
  · rw [hMElen, hGlen]

/-- Claim C7, counterexample: the formatter does not emit one fragment
per change group for every structural diff.  For a diff recording the
addition of a scalar field (exactly what DeepDiff reports when a scalar
key is added), `new_objects` resolves the path to the scalar and
`generate_new_object_diff` calls `.items()` on it, raising
`AttributeError` — the run crashes and zero fragments are emitted for
one added group. -/
theorem formatter_fragment_count_counterexample :
    (DeepDiffResult.dictionary_item_added
        ⟨[renderPath [.str "b"]], [], [], [], [], []⟩).length = 1 ∧
    buildDiffEmbeds ⟨[renderPath [.str "b"]], [], [], [], [], []⟩
      (JsonV.obj []) (JsonV.obj [("b", JsonV.num 2)]) =
      .error "AttributeError: items" :=
  ⟨rfl, rfl⟩

/-- Claim C7 (amended): for every structural diff whose added paths
resolve to mapping objects in the new document and whose modification
parents resolve (or default) to mapping objects in both documents, the
formatter emits exactly one fragment per independent change group: one
fragment per distinct parsed added path (a whole new object), and one
fragment — not N — for the N sibling field modifications sharing one
parent path, modifications being grouped by the path of their nearest
enclosing parent (`keys[:-1]`).  (The original unconditional claim fails
because an added path resolving to a non-mapping crashes the formatter
and an unresolvable added path is skipped without a fragment.) -/
theorem formatter_one_fragment_per_group :
    ∀ (diff : DeepDiffResult) (local_data new_data : JsonV),
      (∀ p ∈ diff.dictionary_item_added ++ diff.iterable_item_added,
        ∃ v, get_by_path new_data (parse_diff_path p) = some v ∧ v.isObj = true) →
      (∀ pc ∈ diff.values_changed, parse_diff_path pc.1 ≠ []) →
      (∀ pc ∈ diff.values_changed,
        ((get_by_path local_data ((parse_diff_path pc.1).dropLast)).getD
          (JsonV.obj [])).isObj = true ∧
        ((get_by_path new_data ((parse_diff_path pc.1).dropLast)).getD
          (JsonV.obj [])).isObj = true) →
      ∃ es, buildDiffEmbeds diff local_data new_data = .ok es ∧
        es.length =
          ((diff.dictionary_item_added ++ diff.iterable_item_added).map
            parse_diff_path).toFinset.card +
          (diff.values_changed.map
            (fun pc => (parse_diff_path pc.1).dropLast)).toFinset.card := by
  intro diff local_data new_data Hadd Hvc Hpar
  obtain ⟨ne, gr, me, hok, _, _, hlen1, hlen2, _⟩ :=
    buildDiffEmbeds_ok_parts diff local_data new_data Hadd Hvc Hpar
  refine ⟨ne ++ me, hok, ?_⟩
  rw [List.length_append, hlen1, hlen2]

theorem formatter_one_fragment_per_group_witness :
    ∃ es, buildDiffEmbeds (⟨[renderPath [.str "b"]], [], [], [],
        [(renderPath [.str "x", .str "f"], JsonV.num 1, JsonV.num 2)], []⟩ : DeepDiffResult)
      (JsonV.obj [("x", JsonV.obj [("f", JsonV.num 1)])])
      (JsonV.obj [("b", JsonV.obj [("c", JsonV.num 3)]),
        ("x", JsonV.obj [("f", JsonV.num 2)])]) = .ok es ∧
      es.length =
        (([renderPath [.str "b"]] ++ []).map parse_diff_path).toFinset.card +
        (([(renderPath [.str "x", .str "f"], JsonV.num 1, JsonV.num 2)]).map
          (fun pc => (parse_diff_path pc.1).dropLast)).toFinset.card := by
  apply formatter_one_fragment_per_group
  · intro p hp
    simp only [List.append_nil, List.mem_singleton] at hp
    subst hp
    exact ⟨JsonV.obj [("c", JsonV.num 3)], rfl, rfl⟩
  · intro pc hpc
    simp only [List.mem_singleton] at hpc
    subst hpc
    decide
  · intro pc hpc
    simp only [List.mem_singleton] at hpc
    subst hpc
    exact ⟨rfl, rfl⟩

/-- Claim C8, counterexample: when a modification group's parent cannot
be resolved in the old document, the formatter is NOT always able to
produce a fragment — if the same parent resolves to a non-mapping (here
a list) in the new document, `generate_object_diff` calls `.keys()` on
it and raises `AttributeError`: the `try/except` only guards the
lookups, not the rendering, so the whole notification crashes. -/
theorem formatter_unresolvable_parent_counterexample :
    get_by_path (JsonV.obj [])
      ((parse_diff_path (renderPath [.str "a", .num 0])).dropLast) = none ∧
    buildDiffEmbeds
      ⟨[], [], [], [], [(renderPath [.str "a", .num 0], JsonV.num 1, JsonV.num 5)], []⟩
      (JsonV.obj []) (JsonV.obj [("a", JsonV.arr [JsonV.num 5])]) =
      .error "AttributeError: keys" :=
  ⟨rfl, rfl⟩

/-- Claim C8 (amended): for every modification group whose enclosing
parent path cannot be resolved in one of the two documents — provided
the parent, where it does resolve, resolves to a mapping, and the
remaining groups and added paths are renderable — the formatter does
not fail: the unresolvable side is substituted by the empty object
`\x7b\x7d` and the group still produces a best-effort rendered
fragment, which appears in the output.  (The unconditional claim fails
when the resolvable side is a non-mapping, as the counterexample shows:
the `try/except` guards only the two lookups, not the rendering.) -/
theorem formatter_empty_object_fallback :
    ∀ (diff : DeepDiffResult) (local_data new_data : JsonV)
      (pc0 : String × JsonV × JsonV),
      pc0 ∈ diff.values_changed →
      (get_by_path local_data ((parse_diff_path pc0.1).dropLast) = none ∨
        get_by_path new_data ((parse_diff_path pc0.1).dropLast) = none) →
      (∀ p ∈ diff.dictionary_item_added ++ diff.iterable_item_added,
        ∃ v, get_by_path new_data (parse_diff_path p) = some v ∧ v.isObj = true) →
      (∀ pc ∈ diff.values_changed, parse_diff_path pc.1 ≠ []) →
      (∀ pc ∈ diff.values_changed,
        ((get_by_path local_data ((parse_diff_path pc.1).dropLast)).getD
          (JsonV.obj [])).isObj = true ∧
        ((get_by_path new_data ((parse_diff_path pc.1).dropLast)).getD
          (JsonV.obj [])).isObj = true) →
      ∃ es groups m s,
        buildDiffEmbeds diff local_data new_data = .ok es ∧
        modificationsByParent diff.values_changed = .ok groups ∧
        ((parse_diff_path pc0.1).dropLast, m) ∈ groups ∧
        ((get_by_path local_data ((parse_diff_path pc0.1).dropLast)).getD
            (JsonV.obj []) = JsonV.obj [] ∨
          (get_by_path new_data ((parse_diff_path pc0.1).dropLast)).getD
            (JsonV.obj []) = JsonV.obj []) ∧
        generate_object_diff
          ((get_by_path local_data ((parse_diff_path pc0.1).dropLast)).getD
            (JsonV.obj []))
          ((get_by_path new_data ((parse_diff_path pc0.1).dropLast)).getD
            (JsonV.obj [])) m = .ok s ∧
        mkModEmbed s ∈ es := by
  intro diff local_data new_data pc0 hpc0 hnone Hadd Hvc Hpar
  obtain ⟨ne, gr, me, hok, hG, hME, _, _, gparents⟩ :=
    buildDiffEmbeds_ok_parts diff local_data new_data Hadd Hvc Hpar
  obtain ⟨g, hg, hg1⟩ := List.mem_map.mp (gparents pc0 hpc0)
  have hvold : ((get_by_path local_data g.1).getD (JsonV.obj [])).isObj = true := by
    rw [hg1]
    exact (Hpar pc0 hpc0).1
  have hvnew : ((get_by_path new_data g.1).getD (JsonV.obj [])).isObj = true := by
    rw [hg1]
    exact (Hpar pc0 hpc0).2
  obtain ⟨s, hs⟩ := generate_object_diff_ok
    ((get_by_path local_data g.1).getD (JsonV.obj []))
    ((get_by_path new_data g.1).getD (JsonV.obj [])) g.2 hvold hvnew
  have hemb : modGroupEmbed local_data new_data g = .ok (mkModEmbed s) :=
    modGroupEmbed_ok local_data new_data g s hs
  obtain ⟨e, he1, he2⟩ := exceptMapM_of_mem _ gr me hME g hg
  rw [hemb] at he1
  cases he1
  refine ⟨ne ++ me, gr, g.2, s, hok, hG, ?_, ?_, ?_,
    List.mem_append.mpr (Or.inr he2)⟩
  · rw [← hg1]
    exact hg
  · rcases hnone with hn | hn
    · exact Or.inl (by rw [hn]; rfl)
    · exact Or.inr (by rw [hn]; rfl)
  · rw [← hg1]
    exact hs

theorem formatter_empty_object_fallback_witness :
    ∃ es groups m s,
      buildDiffEmbeds
        (⟨[], [], [], [], [(renderPath [.str "x", .str "f"], JsonV.num 1, JsonV.num 2)],
          []⟩ : DeepDiffResult)
        (JsonV.obj [("x", JsonV.obj [("f", JsonV.num 1)])]) (JsonV.obj []) = .ok es ∧
      modificationsByParent
        [(renderPath [.str "x", .str "f"], JsonV.num 1, JsonV.num 2)] = .ok groups ∧
      ((parse_diff_path (renderPath [.str "x", .str "f"])).dropLast, m) ∈ groups ∧
      ((get_by_path (JsonV.obj [("x", JsonV.obj [("f", JsonV.num 1)])])
          ((parse_diff_path (renderPath [.str "x", .str "f"])).dropLast)).getD
          (JsonV.obj []) = JsonV.obj [] ∨
        (get_by_path (JsonV.obj [])
          ((parse_diff_path (renderPath [.str "x", .str "f"])).dropLast)).getD
          (JsonV.obj []) = JsonV.obj []) ∧
      generate_object_diff
        ((get_by_path (JsonV.obj [("x", JsonV.obj [("f", JsonV.num 1)])])
          ((parse_diff_path (renderPath [.str "x", .str "f"])).dropLast)).getD
          (JsonV.obj []))
        ((get_by_path (JsonV.obj [])
          ((parse_diff_path (renderPath [.str "x", .str "f"])).dropLast)).getD
          (JsonV.obj [])) m = .ok s ∧
      mkModEmbed s ∈ es := by
  apply formatter_empty_object_fallback
    (⟨[], [], [], [], [(renderPath [.str "x", .str "f"], JsonV.num 1, JsonV.num 2)],
      []⟩ : DeepDiffResult)
    (JsonV.obj [("x", JsonV.obj [("f", JsonV.num 1)])]) (JsonV.obj [])
    (renderPath [.str "x", .str "f"], JsonV.num 1, JsonV.num 2)
  · exact List.mem_singleton.mpr rfl
  · exact Or.inr rfl
  · intro p hp
    cases hp
  · intro pc hpc
    simp only [List.mem_singleton] at hpc
    subst hpc
    decide
  · intro pc hpc
    simp only [List.mem_singleton] at hpc
    subst hpc
    exact ⟨rfl, rfl⟩

theorem buildDiffEmbeds_ok_split (diff : DeepDiffResult) (l n : JsonV) (es : List Embed)
    (h : buildDiffEmbeds diff l n = .ok es) :
    ∃ ne gr me, exceptMapM newObjectEmbed
        (buildNewObjects (diff.dictionary_item_added ++ diff.iterable_item_added) n) =
          .ok ne ∧
      modificationsByParent diff.values_changed = .ok gr ∧
      exceptMapM (modGroupEmbed l n) gr = .ok me ∧ es = ne ++ me := by
  unfold buildDiffEmbeds at h
  dsimp only at h
  cases h1 : exceptMapM newObjectEmbed
      (buildNewObjects (diff.dictionary_item_added ++ diff.iterable_item_added) n) with
  | error e =>
    rw [h1, except_bind_error] at h
    cases h
  | ok ne =>
    rw [h1, except_bind_ok] at h
    cases h2 : modificationsByParent diff.values_changed with
    | error e =>
      rw [h2, except_bind_error] at h
      cases h
    | ok gr =>
      rw [h2, except_bind_ok] at h
      cases h3 : exceptMapM (modGroupEmbed l n) gr with
      | error e =>
        rw [h3, except_bind_error] at h
        cases h
      | ok me =>
        rw [h3, except_bind_ok] at h
        cases h
        exact ⟨ne, gr, me, rfl, rfl, h3, rfl⟩

theorem newObjectEmbed_title (kv : List JKey × JsonV) (e : Embed)
    (h : newObjectEmbed kv = .ok e) : e.title = "Furnidata New Object" := by
  unfold newObjectEmbed at h
  cases hg : generate_new_object_diff kv.2 with
  | error e2 =>
    rw [hg, except_bind_error] at h
    cases h
  | ok s =>
    rw [hg, except_bind_ok] at h
    cases h
    rfl

theorem modGroupEmbed_title (l n : JsonV) (pm : List JKey × List (JKey × JsonV × JsonV))
    (e : Embed) (h : modGroupEmbed l n pm = .ok e) :
    e.title = "Furnidata Modifications" := by
  unfold modGroupEmbed at h
  dsimp only at h
  cases hg : generate_object_diff ((get_by_path l pm.1).getD (JsonV.obj []))
      ((get_by_path n pm.1).getD (JsonV.obj [])) pm.2 with
  | error e2 =>
    rw [hg, except_bind_error] at h
    cases h
  | ok s =>
    rw [hg, except_bind_ok] at h
    cases h
    rfl

/-- Claim C10: the notification builder creates fragments only from the
added categories (`dictionary_item_added`, `iterable_item_added`) and
the modified category (`values_changed`): replacing the removed
categories (`dictionary_item_removed`, `iterable_item_removed`) — and
even `type_changes` — by anything at all leaves the built embeds
unchanged, so removed keys and removed sequence elements are never
reported; and in every successfully built embed list all added-object
fragments precede all modification fragments. -/
theorem notification_builder_categories :
    (∀ (diff : DeepDiffResult) (l n : JsonV) (r1 r2 : List String)
      (tc : List (String × JsonV × JsonV)),
      buildDiffEmbeds ⟨diff.dictionary_item_added, diff.iterable_item_added, r1, r2,
        diff.values_changed, tc⟩ l n = buildDiffEmbeds diff l n) ∧
    (∀ (diff : DeepDiffResult) (l n : JsonV) (es : List Embed),
      buildDiffEmbeds diff l n = .ok es →
      ∃ ne me, es = ne ++ me ∧
        (∀ e ∈ ne, e.title = "Furnidata New Object") ∧
        (∀ e ∈ me, e.title = "Furnidata Modifications")) := by
  constructor
  · intro diff l n r1 r2 tc
    rfl
  · intro diff l n es h
    obtain ⟨ne, gr, me, h1, h2, h3, h4⟩ := buildDiffEmbeds_ok_split diff l n es h
    refine ⟨ne, me, h4, ?_, ?_⟩
    · exact exceptMapM_ok_forall newObjectEmbed _
        (fun kv e he => newObjectEmbed_title kv e he) _ ne h1
    · exact exceptMapM_ok_forall (modGroupEmbed l n) _
        (fun pm e he => modGroupEmbed_title l n pm e he) _ me h3

theorem notification_builder_categories_witness :
    ∃ ne me, [mkNewObjectEmbed "\x7b\n  + \"c\": 3,\n\x7d"] = ne ++ me ∧
      (∀ e ∈ ne, e.title = "Furnidata New Object") ∧
      (∀ e ∈ me, e.title = "Furnidata Modifications") :=
  notification_builder_categories.2 ⟨[renderPath [.str "b"]], [], [], [], [], []⟩
    (JsonV.obj []) (JsonV.obj [("b", JsonV.obj [("c", JsonV.num 3)])])
    [mkNewObjectEmbed "\x7b\n  + \"c\": 3,\n\x7d"] rfl

lemma digitChar_isDigit (d : Nat) (h : d < 10) : (Nat.digitChar d).isDigit = true := by
  interval_cases d <;> decide

lemma digitChar_toNat (d : Nat) (h : d < 10) : (Nat.digitChar d).toNat = 48 + d := by
  interval_cases d <;> decide

lemma natDecimalAux_isDigit (f n : Nat) (h : n < f) :
    ∀ c ∈ natDecimalAux f n, c.isDigit = true := by
  induction f generalizing n with
  | zero => omega
  | succ f ih =>
    intro c hc
    by_cases h10 : n < 10
    · simp only [natDecimalAux, if_pos h10, List.mem_singleton] at hc
      exact hc ▸ digitChar_isDigit n h10
    · simp only [natDecimalAux, if_neg h10, List.mem_append, List.mem_singleton] at hc
      rcases hc with hc | hc
      · exact ih (n / 10) (by omega) c hc
      · rw [hc]; exact digitChar_isDigit (n % 10) (Nat.mod_lt n (by omega))

lemma natDecimalAux_ne_nil (f n : Nat) (h : 0 < f) : natDecimalAux f n ≠ [] := by
  cases f with
  | zero => omega
  | succ f =>
    by_cases h10 : n < 10
    · simp [natDecimalAux, if_pos h10]
    · simp [natDecimalAux, if_neg h10]

lemma digitsToNat_append_singleton (xs : List Char) (c : Char) :
    digitsToNat (xs ++ [c]) = digitsToNat xs * 10 + (c.toNat - '0'.toNat) := by
  simp [digitsToNat, List.foldl_append]

lemma natDecimalAux_val (f n : Nat) (h : n < f) :
    digitsToNat (natDecimalAux f n) = n := by
  induction f generalizing n with
  | zero => omega
  | succ f ih =>
    by_cases h10 : n < 10
    · simp only [natDecimalAux, if_pos h10]
      simp [digitsToNat, digitChar_toNat n h10]
    · simp only [natDecimalAux, if_neg h10]
      rw [digitsToNat_append_singleton, ih (n / 10) (by omega),
        digitChar_toNat (n % 10) (Nat.mod_lt n (by omega))]
      have h0 : Char.toNat (Char.ofNat 48) = 48 := rfl
      rw [h0]
      omega

lemma natDecimal_isDigit (n : Nat) : ∀ c ∈ natDecimal n, c.isDigit = true :=
  natDecimalAux_isDigit (n + 1) n (by omega)

lemma natDecimal_ne_nil (n : Nat) : natDecimal n ≠ [] :=
  natDecimalAux_ne_nil (n + 1) n (by omega)

lemma natDecimal_val (n : Nat) : digitsToNat (natDecimal n) = n :=
  natDecimalAux_val (n + 1) n (by omega)

lemma takeWhile_append_of (p : Char → Bool) (xs : List Char) (y : Char) (ys : List Char)
    (hxs : ∀ x ∈ xs, p x = true) (hy : p y = false) :
    (xs ++ y :: ys).takeWhile p = xs ∧ (xs ++ y :: ys).dropWhile p = y :: ys := by
  induction xs with
  | nil => simp [List.takeWhile, List.dropWhile, hy]
  | cons a as ih =>
    have ha : p a = true := hxs a (by simp)
    have ih2 := ih (fun x hx => hxs x (by simp [hx]))
    simp [List.takeWhile, List.dropWhile, ha, ih2.1, ih2.2]

lemma scan_skip (f : Nat) (c : Char) (rest : List Char) (h : ¬ c = '[') :
    scanDiffPath (f + 1) (c :: rest) = scanDiffPath f rest := by
  simp [scanDiffPath, h]

lemma scan_str_step (f : Nat) (s : String) (tail : List Char)
    (hne : s.data ≠ []) (hq : quoteChar ∉ s.data) :
    scanDiffPath (f + 1) ('[' :: quoteChar :: (s.data ++ quoteChar :: ']' :: tail))
      = JKey.str s :: scanDiffPath f tail := by
  have hpred : ∀ x ∈ s.data, (fun d => decide (¬ d = quoteChar)) x = true := by
    intro x hx
    simp only [decide_eq_true_eq]
    intro hxq
    exact hq (hxq ▸ hx)
  have htw := takeWhile_append_of _ s.data quoteChar (']' :: tail) hpred (by simp)
  obtain ⟨a, as, hdat⟩ : ∃ a as, s.data = a :: as := by
    cases hd : s.data with
    | nil => exact absurd hd hne
    | cons a as => exact ⟨a, as, rfl⟩
  simp only [scanDiffPath, if_pos rfl]
  simp only [if_true]
  rw [htw.1, htw.2, hdat]
  simp only [if_pos rfl, if_true]
  rw [← hdat]

lemma scan_num_step (f n : Nat) (tail : List Char) :
    scanDiffPath (f + 1) ('[' :: (natDecimal n ++ ']' :: tail))
      = JKey.num n :: scanDiffPath f tail := by
  have htw := takeWhile_append_of Char.isDigit (natDecimal n) ']' tail
    (natDecimal_isDigit n) (by decide)
  obtain ⟨a, as, hdat⟩ : ∃ a as, natDecimal n = a :: as := by
    cases hd : natDecimal n with
    | nil => exact absurd hd (natDecimal_ne_nil n)
    | cons a as => exact ⟨a, as, rfl⟩
  have ha : ¬ a = quoteChar := by
    have hd := natDecimal_isDigit n a (by rw [hdat]; simp)
    intro hcon
    rw [hcon] at hd
    exact absurd hd (by decide)
  rw [hdat] at htw
  simp only [List.cons_append] at htw
  rw [hdat]
  simp only [List.cons_append]
  simp only [scanDiffPath, if_pos rfl, if_true]
  rw [if_neg ha]
  rw [htw.1, htw.2]
  simp only [if_pos rfl, if_true]
  rw [← hdat, natDecimal_val n]

lemma renderStep_str_data (s : String) :
    (renderStep (JKey.str s)).data
      = '[' :: quoteChar :: ((s.data ++ [quoteChar]) ++ [']']) := by
  cases s
  rfl

lemma renderStep_num_data (n : Nat) :
    (renderStep (JKey.num n)).data = '[' :: (natDecimal n ++ [']']) := rfl

lemma renderSteps_data (k : JKey) (ks : List JKey) :
    (renderSteps (k :: ks)).data = (renderStep k).data ++ (renderSteps ks).data :=
  String.data_append _ _

lemma scan_renderSteps (p : List JKey) :
    ∀ f, (∀ s, JKey.str s ∈ p → s.data ≠ [] ∧ quoteChar ∉ s.data) →
      (renderSteps p).data.length ≤ f → scanDiffPath f (renderSteps p).data = p := by
  induction p with
  | nil =>
    intro f _ _
    show scanDiffPath f [] = []
    cases f <;> rfl
  | cons k ks ih =>
    intro f h hf
    rw [renderSteps_data k ks] at hf ⊢
    cases k with
    | str s =>
      rw [renderStep_str_data] at hf ⊢
      simp only [List.append_assoc, List.cons_append, List.singleton_append,
        List.nil_append] at hf ⊢
      have hs := h s (by simp)
      cases f with
      | zero => simp at hf
      | succ f =>
        rw [scan_str_step f s ((renderSteps ks).data) hs.1 hs.2]
        have hlen : (renderSteps ks).data.length ≤ f := by
          simp only [List.length_cons, List.length_append] at hf
          omega
        rw [ih f (fun s2 hmem => h s2 (List.mem_cons_of_mem _ hmem)) hlen]
    | num n =>
      rw [renderStep_num_data] at hf ⊢
      simp only [List.append_assoc, List.cons_append, List.singleton_append,
        List.nil_append] at hf ⊢
      cases f with
      | zero => simp at hf
      | succ f =>
        rw [scan_num_step f n ((renderSteps ks).data)]
        have hlen : (renderSteps ks).data.length ≤ f := by
          simp only [List.length_cons, List.length_append] at hf
          omega
        rw [ih f (fun s2 hmem => h s2 (List.mem_cons_of_mem _ hmem)) hlen]

lemma renderPath_data (p : List JKey) :
    (renderPath p).data = 'r' :: 'o' :: 'o' :: 't' :: (renderSteps p).data := by
  show ("root" ++ renderSteps p).data = _
  rw [String.data_append]
  rfl

lemma parse_renderPath (p : List JKey)
    (h : ∀ s, JKey.str s ∈ p → s.data ≠ [] ∧ quoteChar ∉ s.data) :
    parse_diff_path (renderPath p) = p := by
  show scanDiffPath (renderPath p).data.length (renderPath p).data = p
  rw [renderPath_data]
  simp only [List.length_cons]
  rw [scan_skip _ _ _ (by decide), scan_skip _ _ _ (by decide),
    scan_skip _ _ _ (by decide), scan_skip _ _ _ (by decide)]
  exact scan_renderSteps p _ h (le_refl _)

/-- Claim C9, counterexample: the round-trip fails for the empty string
key, which contains no apostrophe and is therefore covered by the
claim.  DeepDiff renders it as the path text of `root` followed by two
adjacent quotes in brackets, but the regex of `parse_diff_path`
(furnidata/furnidata.py) demands at least one character between the
quotes, so the parse returns the empty key list and `get_by_path`
resolves to the whole document instead of the addressed value. -/
theorem parse_path_roundtrip_counterexample :
    parse_diff_path (renderPath [JKey.str ""]) = [] ∧
    quoteChar ∉ ("" : String).data ∧
    get_by_path (JsonV.obj [("", JsonV.num 7)]) [JKey.str ""] = some (JsonV.num 7) ∧
    get_by_path (JsonV.obj [("", JsonV.num 7)]) (parse_diff_path (renderPath [JKey.str ""]))
      = some (JsonV.obj [("", JsonV.num 7)]) :=
  ⟨by decide, by decide, rfl, rfl⟩

/-- Claim C9 (amended): for every path whose string keys are nonempty
and contain no apostrophe (integer indices unrestricted), parsing the
DeepDiff rendering `root['k1'][3]['k2']...` with `parse_diff_path`
returns exactly that sequence of steps — bracketed quoted segments as
string keys, bare bracketed digit runs as integer indices — and hence
`get_by_path` on the originating document resolves the parsed path to
the addressed value.  The original claim omitted the nonemptiness
requirement; the empty string key is a counterexample. -/
theorem parse_render_roundtrip (p : List JKey)
    (h : ∀ s, JKey.str s ∈ p → s.data ≠ [] ∧ quoteChar ∉ s.data) :
    parse_diff_path (renderPath p) = p ∧
      ∀ (data v : JsonV), get_by_path data p = some v →
        get_by_path data (parse_diff_path (renderPath p)) = some v := by
  have hp := parse_renderPath p h
  exact ⟨hp, fun data v hv => by rw [hp]; exact hv⟩

theorem parse_render_roundtrip_witness :
    parse_diff_path (renderPath [JKey.str "a", JKey.num 0, JKey.str "b"])
      = [JKey.str "a", JKey.num 0, JKey.str "b"] ∧
    get_by_path (JsonV.obj [("a", JsonV.arr [JsonV.obj [("b", JsonV.num 5)]])])
      (parse_diff_path (renderPath [JKey.str "a", JKey.num 0, JKey.str "b"]))
      = some (JsonV.num 5) := by
  have h := parse_render_roundtrip [JKey.str "a", JKey.num 0, JKey.str "b"] (by
    intro s hs
    simp only [List.mem_cons, List.not_mem_nil, or_false] at hs
    rcases hs with h1 | h1 | h1
    · injection h1 with h2
      subst h2
      exact ⟨by decide, by decide⟩
    · exact JKey.noConfusion h1
    · injection h1 with h2
      subst h2
      exact ⟨by decide, by decide⟩)
  exact ⟨h.1, h.2 _ _ rfl⟩
